import Mathlib

/-!
Verification of the record pipeline and synchronization reconciler of the
zhaopinxinxi repository (normalizer, cleaner, deduplicator, reconciler).

The Python modules `processors/normalizer.py`, `processors/cleaner.py`,
`processors/deduplicator.py`, `feishu/bitable.py`, `feishu/client.py` and
`config/feishu_config.py` are shallowly embedded below: Python values are an
inductive `PyVal`, dictionaries are insertion-ordered association lists,
`datetime` is an explicit record, the SQLite cache is a list of rows, and
remote/API effects are `Except`-valued collaborator functions supplied as
parameters.  Machine integers are `Nat` with explicit `% 2 ^ w`.
-/

set_option maxRecDepth 4000

namespace Zp

/-! ## Python `datetime` model -/

/-- A `datetime.datetime` value: naive timestamp with microseconds. -/
structure DateTime where
  year : Nat
  month : Nat
  day : Nat
  hour : Nat
  minute : Nat
  second : Nat
  micro : Nat
deriving DecidableEq, Repr

/-- Number of days in a month (Gregorian), as Python's `calendar`/`datetime`. -/
def daysInMonth (year month : Nat) : Nat :=
  if month = 2 then
    if year % 4 = 0 ∧ (year % 100 ≠ 0 ∨ year % 400 = 0) then 29 else 28
  else if month = 4 ∨ month = 6 ∨ month = 9 ∨ month = 11 then 30
  else 31

/-- Left-pad the decimal representation of `n` with zeros to width `w`. -/
def padNum (w n : Nat) : String :=
  let s := toString n
  ⟨List.replicate (w - s.data.length) '0' ++ s.data⟩

/-- `datetime.strftime("%Y-%m-%d")`. -/
def strftimeYMD (d : DateTime) : String :=
  padNum 4 d.year ++ "-" ++ padNum 2 d.month ++ "-" ++ padNum 2 d.day

/-- `datetime.isoformat()`: microseconds are printed only when nonzero. -/
def isoformat (d : DateTime) : String :=
  padNum 4 d.year ++ "-" ++ padNum 2 d.month ++ "-" ++ padNum 2 d.day ++ "T" ++
  padNum 2 d.hour ++ ":" ++ padNum 2 d.minute ++ ":" ++ padNum 2 d.second ++
  (if d.micro = 0 then "" else "." ++ padNum 6 d.micro)

/-- `str(datetime)`: like `isoformat` but with a space separator. -/
def dateTimeStr (d : DateTime) : String :=
  padNum 4 d.year ++ "-" ++ padNum 2 d.month ++ "-" ++ padNum 2 d.day ++ " " ++
  padNum 2 d.hour ++ ":" ++ padNum 2 d.minute ++ ":" ++ padNum 2 d.second ++
  (if d.micro = 0 then "" else "." ++ padNum 6 d.micro)

/-! ## Python values and dictionaries -/

/-- A loosely-typed Python value, as flows through the pipeline. -/
inductive PyVal where
  | none : PyVal
  | str : String → PyVal
  | int : Int → PyVal
  | bool : Bool → PyVal
  | date : DateTime → PyVal
  | list : List PyVal → PyVal
deriving Repr

mutual
/-- Boolean equality on `PyVal` (the nested list blocks automatic derivation). -/
def pyValEqv : PyVal → PyVal → Bool
  | .none, .none => true
  | .str a, .str b => a == b
  | .int a, .int b => a == b
  | .bool a, .bool b => a == b
  | .date a, .date b => a == b
  | .list a, .list b => pyValListEqv a b
  | _, _ => false

def pyValListEqv : List PyVal → List PyVal → Bool
  | [], [] => true
  | a :: as, b :: bs => pyValEqv a b && pyValListEqv as bs
  | _, _ => false
end

mutual
def pyValEqv_iff : ∀ (a b : PyVal), pyValEqv a b = true ↔ a = b
  | .none, b => by cases b <;> simp [pyValEqv]
  | .str _, b => by cases b <;> simp [pyValEqv]
  | .int _, b => by cases b <;> simp [pyValEqv]
  | .bool _, b => by cases b <;> simp [pyValEqv]
  | .date _, b => by cases b <;> simp [pyValEqv]
  | .list as, .none => by simp [pyValEqv]
  | .list as, .str _ => by simp [pyValEqv]
  | .list as, .int _ => by simp [pyValEqv]
  | .list as, .bool _ => by simp [pyValEqv]
  | .list as, .date _ => by simp [pyValEqv]
  | .list as, .list bs => by
      simpa [pyValEqv] using pyValListEqv_iff as bs

def pyValListEqv_iff : ∀ (as bs : List PyVal), pyValListEqv as bs = true ↔ as = bs
  | [], [] => by simp [pyValListEqv]
  | [], _ :: _ => by simp [pyValListEqv]
  | _ :: _, [] => by simp [pyValListEqv]
  | a :: as, b :: bs => by
      simp [pyValListEqv, pyValEqv_iff a b, pyValListEqv_iff as bs]
end

instance : DecidableEq PyVal := fun a b => decidable_of_iff _ (pyValEqv_iff a b)

/-- Python truthiness (`bool(v)`): `None`, `""`, `0`, `False`, `[]` are falsy. -/
def pyTruthy : PyVal → Bool
  | .none => false
  | .str s => s != ""
  | .int n => n != 0
  | .bool b => b
  | .date _ => true
  | .list l => !l.isEmpty

mutual
/-- `str(v)` for a Python value. -/
def pyStr : PyVal → String
  | .none => "None"
  | .str s => s
  | .int n => toString n
  | .bool b => if b then "True" else "False"
  | .date d => dateTimeStr d
  | .list l => "[" ++ String.intercalate ", " (pyReprList l) ++ "]"

/-- `repr(v)` for a Python value (strings gain quotes). -/
def pyRepr : PyVal → String
  | .str s => "'" ++ s ++ "'"
  | .none => "None"
  | .int n => toString n
  | .bool b => if b then "True" else "False"
  | .date d => "datetime.datetime(" ++ toString d.year ++ ", " ++ toString d.month
      ++ ", " ++ toString d.day ++ ")"
  | .list l => "[" ++ String.intercalate ", " (pyReprList l) ++ "]"

def pyReprList : List PyVal → List String
  | [] => []
  | v :: vs => pyRepr v :: pyReprList vs
end

/-- An insertion-ordered Python dictionary with string keys. -/
abbrev PyDict := List (String × PyVal)

/-- `d[k] = v`: replace in place when the key is present, else append. -/
def dictSet (d : PyDict) (k : String) (v : PyVal) : PyDict :=
  match d with
  | [] => [(k, v)]
  | (k0, v0) :: rest =>
      if k0 = k then (k0, v) :: rest else (k0, v0) :: dictSet rest k v

/-- `d.get(k)` (default `None` when absent). -/
def dictGet (d : PyDict) (k : String) : PyVal :=
  match d with
  | [] => .none
  | (k0, v0) :: rest => if k0 = k then v0 else dictGet rest k

/-- `d.get(k, default)`. -/
def dictGetD (d : PyDict) (k : String) (dflt : PyVal) : PyVal :=
  match d with
  | [] => dflt
  | (k0, v0) :: rest => if k0 = k then v0 else dictGetD rest k dflt

/-- `k in d`. -/
def dictHas (d : PyDict) (k : String) : Bool :=
  match d with
  | [] => false
  | (k0, _) :: rest => k0 = k ∨ dictHas rest k

/-! ## Generic chunking (the `range(0, len(x), batch_size)` slicing loop) -/

/-- The chunks `[l[0:n], l[n:2n], ...]` produced by
`for i in range(0, len(l), n): l[i:i+n]` (for `n > 0`). -/
def chunksOfGo (n : Nat) : Nat → List α → List (List α)
  | 0, _ => []
  | _ + 1, [] => []
  | fuel + 1, x :: xs => (x :: xs).take n :: chunksOfGo n fuel ((x :: xs).drop n)

def chunksOf (n : Nat) (l : List α) : List (List α) :=
  if n = 0 then [] else chunksOfGo n l.length l

/-! ## MD5 (`hashlib.md5(...).hexdigest()`), over `Nat` with explicit wrap -/

/-- Truncate to 32 bits. -/
def m32 (x : Nat) : Nat := x % 4294967296

/-- 32-bit modular addition. -/
def madd (a b : Nat) : Nat := (a + b) % 4294967296

/-- 32-bit complement (argument assumed reduced). -/
def mnot (x : Nat) : Nat := 4294967295 - m32 x

/-- 32-bit left rotation by `s`. -/
def rotl (s x : Nat) : Nat :=
  let x := m32 x
  ((x * 2 ^ s) % 4294967296) + x / 2 ^ (32 - s)

/-- The 64 MD5 round constants `floor(2^32 * |sin(i+1)|)`. -/
def md5K : List Nat :=
  [3614090360, 3905402710, 606105819, 3250441966, 4118548399, 1200080426,
   2821735955, 4249261313, 1770035416, 2336552879, 4294925233, 2304563134,
   1804603682, 4254626195, 2792965006, 1236535329, 4129170786, 3225465664,
   643717713, 3921069994, 3593408605, 38016083, 3634488961, 3889429448,
   568446438, 3275163606, 4107603335, 1163531501, 2850285829, 4243563512,
   1735328473, 2368359562, 4294588738, 2272392833, 1839030562, 4259657740,
   2763975236, 1272893353, 4139469664, 3200236656, 681279174, 3936430074,
   3572445317, 76029189, 3654602809, 3873151461, 530742520, 3299628645,
   4096336452, 1126891415, 2878612391, 4237533241, 1700485571, 2399980690,
   4293915773, 2240044497, 1873313359, 4264355552, 2734768916, 1309151649,
   4149444226, 3174756917, 718787259, 3951481745]

/-- The 64 MD5 per-round left-rotation amounts. -/
def md5S : List Nat :=
  [7, 12, 17, 22, 7, 12, 17, 22, 7, 12, 17, 22, 7, 12, 17, 22,
   5, 9, 14, 20, 5, 9, 14, 20, 5, 9, 14, 20, 5, 9, 14, 20,
   4, 11, 16, 23, 4, 11, 16, 23, 4, 11, 16, 23, 4, 11, 16, 23,
   6, 10, 15, 21, 6, 10, 15, 21, 6, 10, 15, 21, 6, 10, 15, 21]

/-- One MD5 round `i` on state `(a, b, c, d)` with message words `m`. -/
def md5Round (m : List Nat) (i : Nat) :
    Nat × Nat × Nat × Nat → Nat × Nat × Nat × Nat :=
  fun (a, b, c, d) =>
    let (f, g) :=
      if i < 16 then (Nat.lor (Nat.land b c) (Nat.land (mnot b) d), i)
      else if i < 32 then
        (Nat.lor (Nat.land d b) (Nat.land (mnot d) c), (5 * i + 1) % 16)
      else if i < 48 then (Nat.xor (Nat.xor b c) d, (3 * i + 5) % 16)
      else (Nat.xor c (Nat.lor b (mnot d)), (7 * i) % 16)
    let f := madd (madd f a) (madd (md5K.getD i 0) (m.getD g 0))
    (d, madd b (rotl (md5S.getD i 0) f), b, c)

/-- Decode a 64-byte block into 16 little-endian 32-bit words. -/
def md5Words (block : List Nat) : List Nat :=
  (chunksOf 4 block).map fun bs =>
    bs.getD 0 0 + 256 * bs.getD 1 0 + 65536 * bs.getD 2 0 +
      16777216 * bs.getD 3 0

/-- Process one 64-byte block, updating the running digest state. -/
def md5Block (st : Nat × Nat × Nat × Nat) (block : List Nat) :
    Nat × Nat × Nat × Nat :=
  let m := md5Words block
  let r := (List.range 64).foldl (fun s i => md5Round m i s) st
  match st, r with
  | (a0, b0, c0, d0), (a, b, c, d) =>
      (madd a0 a, madd b0 b, madd c0 c, madd d0 d)

/-- MD5 padding: `0x80`, zeros to 56 mod 64, then the 64-bit LE bit length. -/
def md5Pad (msg : List Nat) : List Nat :=
  let bitLen := 8 * msg.length
  msg ++ [128] ++ List.replicate ((119 - msg.length % 64) % 64) 0 ++
    (List.range 8).map fun i => bitLen / 2 ^ (8 * i) % 256

/-- Lowercase hexadecimal digit. -/
def hexDigit (n : Nat) : Char :=
  if n < 10 then Char.ofNat (48 + n) else Char.ofNat (87 + n)

/-- A byte as two lowercase hex digits. -/
def byteHex (b : Nat) : List Char := [hexDigit (b / 16), hexDigit (b % 16)]

/-- A 32-bit word as 8 hex digits, little-endian byte order. -/
def wordHexLE (w : Nat) : List Char :=
  byteHex (w % 256) ++ byteHex (w / 256 % 256) ++ byteHex (w / 65536 % 256) ++
    byteHex (w / 16777216 % 256)

/-- `hashlib.md5(bytes).hexdigest()` on a byte list. -/
def md5Bytes (msg : List Nat) : String :=
  let (a, b, c, d) :=
    (chunksOf 64 (md5Pad msg)).foldl md5Block
      (1732584193, 4023233417, 2562383102, 271733878)
  ⟨wordHexLE a ++ wordHexLE b ++ wordHexLE c ++ wordHexLE d⟩

/-- UTF-8 encoding of one code point (as `str.encode()`). -/
def utf8Char (c : Char) : List Nat :=
  let n := c.toNat
  if n < 128 then [n]
  else if n < 2048 then [192 + n / 64, 128 + n % 64]
  else if n < 65536 then [224 + n / 4096, 128 + n / 64 % 64, 128 + n % 64]
  else [240 + n / 262144, 128 + n / 4096 % 64, 128 + n / 64 % 64, 128 + n % 64]

/-- `s.encode()`: UTF-8 bytes of a string. -/
def utf8Bytes (s : String) : List Nat := (s.data.map utf8Char).flatten

/-- `hashlib.md5(s.encode()).hexdigest()`. -/
def md5Hex (s : String) : String := md5Bytes (utf8Bytes s)

/-- Sanity: the standard MD5 test vector for the empty message. -/
example : md5Hex "" = "d41d8cd98f00b204e9800998ecf8427e" := by rfl

/-! ## Deduplicator (`processors/deduplicator.py`) -/

/-- `config/settings.py`: `DEDUPLICATION_FIELDS`. -/
def DEDUPLICATION_FIELDS : List String := ["company_name", "position", "publish_date"]

/-- One pass of the `_generate_hash` loop body: serialize a dedup-field value
(`datetime` → `%Y-%m-%d`; `list` → sorted, comma-joined `str` of elements;
anything else → `str(value)`). -/
def serializeHashField (v : PyVal) : String :=
  match v with
  | .date d => strftimeYMD d
  | .list l => String.intercalate "," (List.insertionSort (fun a b => a ≤ b) (l.map pyStr))
  | v => pyStr v

/-- `Deduplicator._generate_hash`: join the serialized dedup fields with `"|"`
and take the MD5 hex digest. -/
def generateHash (record : PyDict) : String :=
  md5Hex (String.intercalate "|"
    (DEDUPLICATION_FIELDS.map fun f => serializeHashField (dictGetD record f (.str ""))))

/-- One row of the SQLite `records` cache table. -/
structure CacheEntry where
  recordHash : String
  companyName : PyVal
  position : PyVal
  publishDate : PyVal
  sourceUrl : PyVal
  firstSeen : String
  lastSeen : String
  feishuRecordId : Option String
deriving DecidableEq, Repr

/-- The persistent cache: the `records` table in rowid order. -/
abbrev Cache := List CacheEntry

/-- The `Deduplicator.stats` counters. -/
structure DedupStats where
  checked : Nat
  duplicates : Nat
  unique : Nat
deriving DecidableEq, Repr

/-- `Deduplicator.is_duplicate`: bump `checked`, `SELECT` the hash, bump
`duplicates`/`unique`; the cache is returned to expose the (absent) write
effects of the call. -/
def isDuplicate (cache : Cache) (stats : DedupStats) (record : PyDict) :
    Bool × Cache × DedupStats :=
  let stats := { stats with checked := stats.checked + 1 }
  let h := generateHash record
  let isDup := cache.any fun e => e.recordHash == h
  (isDup, cache,
    if isDup then { stats with duplicates := stats.duplicates + 1 }
    else { stats with unique := stats.unique + 1 })

/-- `Deduplicator.add_record`: `INSERT`; on `IntegrityError` (hash already
present) `UPDATE ... SET last_seen = now, feishu_record_id = arg`. -/
def addRecord (cache : Cache) (record : PyDict) (feishuRecordId : Option String)
    (now : DateTime) : Cache :=
  let h := generateHash record
  let nowS := isoformat now
  if cache.any fun e => e.recordHash == h then
    cache.map fun e =>
      if e.recordHash == h then
        { e with lastSeen := nowS, feishuRecordId := feishuRecordId }
      else e
  else
    cache ++ [{ recordHash := h
                companyName := dictGetD record "company_name" (.str "")
                position := dictGetD record "position" (.str "")
                publishDate := dictGetD record "publish_date" (.str "")
                sourceUrl := dictGetD record "source" (.str "")
                firstSeen := nowS
                lastSeen := nowS
                feishuRecordId := feishuRecordId }]

/-- The `filter_duplicates` loop.  The extra `List String` output is a ghost
log: the hash queried by each `is_duplicate` store lookup, in order. -/
def filterDuplicatesGo (cache : Cache) (stats : DedupStats) (seen : List String) :
    List PyDict → List PyDict × Cache × DedupStats × List String
  | [] => ([], cache, stats, [])
  | r :: rs =>
    let h := generateHash r
    if seen.contains h then
      filterDuplicatesGo cache { stats with duplicates := stats.duplicates + 1 } seen rs
    else
      let res := isDuplicate cache stats r
      if res.1 then
        let rest := filterDuplicatesGo res.2.1 res.2.2 seen rs
        (rest.1, rest.2.1, rest.2.2.1, h :: rest.2.2.2)
      else
        let rest := filterDuplicatesGo res.2.1 res.2.2 (h :: seen) rs
        (r :: rest.1, rest.2.1, rest.2.2.1, h :: rest.2.2.2)

/-- `Deduplicator.filter_duplicates` (with the ghost store-lookup log). -/
def filterDuplicates (cache : Cache) (stats : DedupStats) (records : List PyDict) :
    List PyDict × Cache × DedupStats × List String :=
  filterDuplicatesGo cache stats [] records

/-- `Deduplicator.cleanup_old_records`: truncate `now` to midnight, move the
day-of-month back by `days` via `datetime.replace` (which raises `ValueError`
for an out-of-range day), then `DELETE FROM records WHERE first_seen < cutoff`
and report `cursor.rowcount`. -/
def cleanupOldRecords (cache : Cache) (days : Nat) (now : DateTime) :
    Except String (Nat × Cache) :=
  let mid : DateTime := { now with hour := 0, minute := 0, second := 0, micro := 0 }
  let newDay : Int := (mid.day : Int) - (days : Int)
  if 1 ≤ newDay ∧ newDay ≤ (daysInMonth mid.year mid.month : Int) then
    let cutoff : DateTime := { mid with day := newDay.toNat }
    let kept := cache.filter fun e => !(decide (e.firstSeen < isoformat cutoff))
    .ok (cache.length - kept.length, kept)
  else
    .error "ValueError: day is out of range for month"

/-! ## Python string helpers shared by normalizer and cleaner -/

/-- Whitespace for `str.strip()` / `str.split()` (ASCII whitespace). -/
def isSpaceChar (c : Char) : Bool :=
  c == ' ' || c == '\t' || c == '\n' || c == '\r' || c == '\x0B' || c == '\x0C'

/-- `str.strip()` on a character list. -/
def stripChars (l : List Char) : List Char :=
  ((l.dropWhile isSpaceChar).reverse.dropWhile isSpaceChar).reverse

/-- `s.strip()`. -/
def pyStrip (s : String) : String := ⟨stripChars s.data⟩

/-- `str.split()` (split on whitespace runs, dropping empties); the
accumulator holds the current word reversed. -/
def splitWsAux : List Char → List Char → List (List Char)
  | [], acc => if acc.isEmpty then [] else [acc.reverse]
  | c :: cs, acc =>
    if isSpaceChar c then
      if acc.isEmpty then splitWsAux cs [] else acc.reverse :: splitWsAux cs []
    else splitWsAux cs (c :: acc)

/-- `s.split()`. -/
def pySplitWs (s : String) : List String :=
  (splitWsAux s.data []).map fun l => ⟨l⟩

/-- `" ".join(words)` on char lists. -/
def joinSpace : List (List Char) → List Char
  | [] => []
  | [w] => w
  | w :: ws => w ++ ' ' :: joinSpace ws

/-- `" ".join(s.strip().split())` — the text collapse used by
`_normalize_text`, `_clean_company_name` and `_clean_position`. -/
def collapseWs (s : String) : String :=
  ⟨joinSpace (splitWsAux (stripChars s.data) [])⟩

/-- Is `pat` a prefix of `l`? (`str.startswith` on char lists.) -/
def startsWithL : List Char → List Char → Bool
  | [], _ => true
  | _ :: _, [] => false
  | p :: ps, c :: cs => p == c && startsWithL ps cs

/-- `needle in hay` for Python strings (substring containment). -/
def subStr (needle : List Char) : List Char → Bool
  | [] => needle.isEmpty
  | c :: cs => startsWithL needle (c :: cs) || subStr needle cs

/-- `needle in hay` on `String`. -/
def pyContains (needle hay : String) : Bool := subStr needle.data hay.data

/-- `s.startswith(p)`. -/
def pyStartsWith (s p : String) : Bool := startsWithL p.data s.data

/-- `str.split(sep)` for a one-character separator (keeps empty parts). -/
def splitOnCharAux (sep : Char) : List Char → List Char → List String
  | [], acc => [⟨acc.reverse⟩]
  | c :: cs, acc =>
    if c == sep then (⟨acc.reverse⟩ : String) :: splitOnCharAux sep cs []
    else splitOnCharAux sep cs (c :: acc)

/-- `s.split(sep)` for a one-character separator. -/
def pySplitOn (sep : Char) (s : String) : List String := splitOnCharAux sep s.data []

/-- `s.lower()` (ASCII case fold; CJK text is unaffected). -/
def pyLower (s : String) : String := ⟨s.data.map Char.toLower⟩

/-- `s.replace(a, b)` for one-character pattern and replacement. -/
def pyReplaceChar (a b : Char) (s : String) : String :=
  ⟨s.data.map fun c => if c == a then b else c⟩

/-- `s.replace(a, "")` for a one-character pattern. -/
def pyRemoveChar (a : Char) (s : String) : String :=
  ⟨s.data.filter fun c => !(c == a)⟩

/-! ## `datetime.strptime` model (the ordered date-format lists) -/

/-- One token of a `strptime` format string. -/
inductive FmtTok where
  | year | month | dayTok | hourTok | minuteTok | secondTok
  | lit (c : Char)
deriving DecidableEq, Repr

/-- Take up to `n` leading decimal digits. -/
def takeDigits : Nat → List Char → List Char × List Char
  | 0, cs => ([], cs)
  | _ + 1, [] => ([], [])
  | n + 1, c :: cs =>
    if c.isDigit then
      let (ds, rest) := takeDigits n cs
      (c :: ds, rest)
    else ([], c :: cs)

/-- Decimal value of a digit list. -/
def digitsToNat (ds : List Char) : Nat :=
  ds.foldl (fun n c => 10 * n + (c.toNat - 48)) 0

/-- Partially parsed `strptime` fields. -/
structure ParsedDT where
  y : Option Nat := Option.none
  m : Option Nat := Option.none
  d : Option Nat := Option.none
  hh : Option Nat := Option.none
  mm : Option Nat := Option.none
  ss : Option Nat := Option.none
deriving Repr

/-- Match a format token list against the input (whole-string match). -/
def strptimeGo : List FmtTok → List Char → ParsedDT → Option ParsedDT
  | [], cs, acc => if cs.isEmpty then some acc else Option.none
  | t :: ts, cs, acc =>
    match t with
    | .lit c =>
      match cs with
      | [] => Option.none
      | c0 :: rest => if c0 == c then strptimeGo ts rest acc else Option.none
    | .year =>
      let (ds, rest) := takeDigits 4 cs
      if ds.isEmpty then Option.none
      else strptimeGo ts rest { acc with y := some (digitsToNat ds) }
    | .month =>
      let (ds, rest) := takeDigits 2 cs
      if ds.isEmpty then Option.none
      else strptimeGo ts rest { acc with m := some (digitsToNat ds) }
    | .dayTok =>
      let (ds, rest) := takeDigits 2 cs
      if ds.isEmpty then Option.none
      else strptimeGo ts rest { acc with d := some (digitsToNat ds) }
    | .hourTok =>
      let (ds, rest) := takeDigits 2 cs
      if ds.isEmpty then Option.none
      else strptimeGo ts rest { acc with hh := some (digitsToNat ds) }
    | .minuteTok =>
      let (ds, rest) := takeDigits 2 cs
      if ds.isEmpty then Option.none
      else strptimeGo ts rest { acc with mm := some (digitsToNat ds) }
    | .secondTok =>
      let (ds, rest) := takeDigits 2 cs
      if ds.isEmpty then Option.none
      else strptimeGo ts rest { acc with ss := some (digitsToNat ds) }

/-- `datetime.strptime(s, fmt)`: parse, fill 1900-01-01 defaults, and
validate ranges (out-of-range values raise, i.e. yield `none`). -/
def pyStrptime (toks : List FmtTok) (s : String) : Option DateTime :=
  match strptimeGo toks s.data {} with
  | Option.none => Option.none
  | some p =>
    let y := p.y.getD 1900
    let m := p.m.getD 1
    let d := p.d.getD 1
    let hh := p.hh.getD 0
    let mm := p.mm.getD 0
    let ss := p.ss.getD 0
    if 1 ≤ y ∧ y ≤ 9999 ∧ 1 ≤ m ∧ m ≤ 12 ∧ 1 ≤ d ∧ d ≤ daysInMonth y m ∧
        hh ≤ 23 ∧ mm ≤ 59 ∧ ss ≤ 59 then
      some ⟨y, m, d, hh, mm, ss, 0⟩
    else Option.none

/-- A format, with whether it mentions `%Y` (drives the year-default rule). -/
structure DateFmt where
  toks : List FmtTok
  hasYear : Bool
deriving Repr

def fmtYMDdash : DateFmt := ⟨[.year, .lit '-', .month, .lit '-', .dayTok], true⟩
def fmtYMDslash : DateFmt := ⟨[.year, .lit '/', .month, .lit '/', .dayTok], true⟩
def fmtYMDcjk : DateFmt :=
  ⟨[.year, .lit '年', .month, .lit '月', .dayTok, .lit '日'], true⟩
def fmtMDdash : DateFmt := ⟨[.month, .lit '-', .dayTok], false⟩
def fmtMDslash : DateFmt := ⟨[.month, .lit '/', .dayTok], false⟩
def fmtYMDHMS : DateFmt :=
  ⟨[.year, .lit '-', .month, .lit '-', .dayTok, .lit ' ',
    .hourTok, .lit ':', .minuteTok, .lit ':', .secondTok], true⟩

/-! ## Option sets (`config/feishu_config.py`) -/

def COMPANY_TYPE_OPTIONS : List String :=
  ["民营企业", "国有企业", "央企", "外资企业", "创业公司", "其他"]

def INDUSTRY_OPTIONS : List String :=
  ["互联网", "金融", "制造业", "教育", "医疗", "房地产", "零售", "能源", "其他"]

def EDUCATION_OPTIONS : List String :=
  ["本科", "硕士", "博士", "本科及以上", "硕士及以上", "不限"]

def TARGET_OPTIONS : List String := ["2026届", "2025届", "2024届", "往届"]

/-! ## Normalizer (`processors/normalizer.py`) -/

/-- `_normalize_text`. -/
def normalizeText (v : PyVal) : PyVal :=
  match v with
  | .none => .str ""
  | v => .str (collapseWs (pyStr v))

/-- `_normalize_url`. -/
def normalizeUrl (v : PyVal) : PyVal :=
  if !pyTruthy v then .str ""
  else
    let url := pyStrip (pyStr v)
    .str (if pyStartsWith url "http://" || pyStartsWith url "https://" then url
          else "https://" ++ url)

/-- The ordered format list of `_normalize_date`. -/
def normalizeDateFmts : List DateFmt :=
  [fmtYMDdash, fmtYMDslash, fmtYMDcjk, fmtMDdash, fmtMDslash]

/-- The `for fmt in formats: try ... except ValueError: continue` loop:
first parsing format wins; a format without `%Y` gets the current year. -/
def tryDateFmts (now : DateTime) : List DateFmt → String → Option DateTime
  | [], _ => Option.none
  | f :: fs, s =>
    match pyStrptime f.toks s with
    | some p => some (if f.hasYear then p else { p with year := now.year })
    | Option.none => tryDateFmts now fs s

/-- `_normalize_date`: `None` and unparseable inputs default to `now`. -/
def normalizeDate (now : DateTime) (v : PyVal) : PyVal :=
  match v with
  | .none => .date now
  | .date d => .date d
  | .str s =>
    match tryDateFmts now normalizeDateFmts s with
    | some d => .date d
    | Option.none => .date now
  | _ => .date now

/-- The `batch_keywords` table of `_normalize_batch` (insertion order). -/
def batchKeywords : List (String × String) :=
  [("春招提前批", "春招提前批"), ("春招", "春招"), ("春招补录", "春招补录"),
   ("秋招提前批", "秋招提前批"), ("秋招", "秋招"), ("秋招补录", "秋招补录"),
   ("寒假实习", "寒假实习"), ("暑期实习", "暑期实习"), ("日常实习", "日常实习")]

/-- The `for keyword, batch in batch_keywords.items()` scan. -/
def findBatchKeyword : List (String × String) → String → Option String
  | [], _ => Option.none
  | (k, b) :: rest, text =>
    if pyContains k text then some b else findBatchKeyword rest text

/-- `_normalize_batch`. -/
def normalizeBatch (v : PyVal) : PyVal :=
  if !pyTruthy v then .str ""
  else
    let text := pyStrip (pyStr v)
    match findBatchKeyword batchKeywords text with
    | some b => .str b
    | Option.none => .str (if text = "" then "春招" else text)

/-- The fuzzy-match scan of `_normalize_enum`:
first option that contains or is contained in the text. -/
def findFuzzyOption : List String → String → Option String
  | [], _ => Option.none
  | o :: os, text =>
    if pyContains o text || pyContains text o then some o else findFuzzyOption os text

/-- `_normalize_enum(value, options, default)`. -/
def normalizeEnum (v : PyVal) (options : List String) (dflt : String) : PyVal :=
  if !pyTruthy v then .str dflt
  else
    let scalar : Option PyVal :=
      match v with
      | .list [] => Option.none
      | .list (x :: _) => some x
      | v => some v
    match scalar with
    | Option.none => .str dflt
    | some x =>
      let text := pyStrip (pyStr x)
      if options.contains text then .str text
      else
        match findFuzzyOption options text with
        | some o => .str o
        | Option.none => .str dflt

/-- The separator list of `_normalize_list`, in trial order. -/
def citySeparators : List Char := [',', '、', '/', '|', '；', ';']

/-- `for sep in [...]: if sep in value: ...` — the first separator present. -/
def findSepChar : List Char → String → Option Char
  | [], _ => Option.none
  | c :: cs, s => if pyContains ⟨[c]⟩ s then some c else findSepChar cs s

/-- `_normalize_list` (the `city` field). -/
def normalizeCityList (v : PyVal) : PyVal :=
  if !pyTruthy v then .list []
  else
    match v with
    | .list l => .list ((l.filter pyTruthy).map fun x => .str (pyStrip (pyStr x)))
    | .str s =>
      match findSepChar citySeparators s with
      | some sep =>
        .list ((((pySplitOn sep s).map pyStrip).filter fun t => t ≠ "").map .str)
      | Option.none => .list [.str (pyStrip s)]
    | _ => .list []

/-- `_normalize_target_list`. -/
def normalizeTargetList (v : PyVal) : PyVal :=
  if !pyTruthy v then .list [.str "2026届"]
  else
    match v with
    | .list l =>
      let targets := (l.map fun x => pyStrip (pyStr x)).filter fun t =>
        TARGET_OPTIONS.contains t
      .list ((if targets.isEmpty then ["2026届"] else targets).map .str)
    | .str s =>
      let targets := TARGET_OPTIONS.filter fun o => pyContains o s
      .list ((if targets.isEmpty then ["2026届"] else targets).map .str)
    | _ => .list [.str "2026届"]

/-- `_normalize_boolean`. -/
def normalizeBoolean (v : PyVal) : PyVal :=
  match v with
  | .bool b => .bool b
  | .str s => .bool (["yes", "是", "true", "1", "免笔试"].contains (pyLower s))
  | v => .bool (pyTruthy v)

/-- The static key-alias table (`field_mapping` in `normalize_record`). -/
def normalizerFieldMapping : List (String × String) :=
  [("company", "company_name"), ("公司", "company_name"), ("公司名称", "company_name"),
   ("企业", "company_name"), ("企业名称", "company_name"),
   ("job", "position"), ("职位", "position"), ("岗位", "position"), ("title", "position"),
   ("date", "publish_date"), ("发布日期", "publish_date"), ("更新日期", "publish_date"),
   ("发布时间", "publish_date"),
   ("url", "source"), ("链接", "source"), ("申请链接", "source"),
   ("location", "city"), ("地点", "city"), ("工作地点", "city"), ("工作城市", "city"),
   ("学历", "education"), ("学位", "education"), ("学历要求", "education"),
   ("截止日期", "deadline"), ("申请截止", "deadline")]

/-- `field_mapping.get(key, key)`. -/
def mapStdKey (k : String) : String :=
  match normalizerFieldMapping.lookup k with
  | some s => s
  | Option.none => k

/-- The `mapped_record` construction loop of `normalize_record`. -/
def mapRecordKeys (r : PyDict) : PyDict :=
  r.foldl (fun acc kv => dictSet acc (mapStdKey kv.1) kv.2) []

/-- `DataNormalizer.normalize_record` (the `stats` counters carry no data
dependence and are omitted; `now` stands for `datetime.now()`). -/
def normalizeRecord (now : DateTime) (record : PyDict) : PyDict :=
  let mapped := mapRecordKeys record
  [("company_name", normalizeText (dictGetD mapped "company_name" (.str ""))),
   ("position", normalizeText (dictGetD mapped "position" (.str ""))),
   ("source", normalizeUrl (dictGetD mapped "source" (.str ""))),
   ("publish_date", normalizeDate now (dictGet mapped "publish_date")),
   ("deadline", normalizeDate now (dictGet mapped "deadline")),
   ("batch", normalizeBatch (dictGet mapped "batch")),
   ("company_type", normalizeEnum (dictGet mapped "company_type") COMPANY_TYPE_OPTIONS "民营企业"),
   ("industry", normalizeEnum (dictGet mapped "industry") INDUSTRY_OPTIONS "互联网"),
   ("city", normalizeCityList (dictGet mapped "city")),
   ("education", normalizeEnum (dictGet mapped "education") EDUCATION_OPTIONS "本科及以上"),
   ("target", normalizeTargetList (dictGet mapped "target")),
   ("no_written_test", normalizeBoolean (dictGet mapped "no_written_test")),
   ("referral_code", normalizeText (dictGetD mapped "referral_code" (.str "")))]

/-! ## Cleaner (`processors/cleaner.py`) -/

/-- The `DataCleaner.stats` counters. -/
structure CleanStats where
  processed : Nat
  cleaned : Nat
  invalid : Nat
deriving DecidableEq, Repr

/-- The per-field test of `_is_valid`:
`not value or (isinstance(value, str) and not value.strip())`. -/
def requiredFieldBad (v : PyVal) : Bool :=
  !pyTruthy v ||
    (match v with
     | .str s => pyStrip s == ""
     | _ => false)

/-- `DataCleaner._is_valid`: both `company_name` and `position` must pass. -/
def isValidRecord (record : PyDict) : Bool :=
  !requiredFieldBad (dictGet record "company_name") &&
    !requiredFieldBad (dictGet record "position")

/-- `_clean_company_name`. -/
def cleanCompanyName (v : PyVal) : PyVal :=
  if !pyTruthy v then .str ""
  else
    let text := pyStrip (pyStr v)
    let text := pyReplaceChar '）' ')' (pyReplaceChar '（' '(' text)
    .str ⟨joinSpace (splitWsAux text.data [])⟩

/-- `_clean_position`. -/
def cleanPosition (v : PyVal) : PyVal :=
  if !pyTruthy v then .str ""
  else
    let text := pyStrip (pyStr v)
    let text := pyReplaceChar '）' ')' (pyReplaceChar '（' '(' text)
    .str ⟨joinSpace (splitWsAux text.data [])⟩

/-- `_clean_url`. -/
def cleanUrl (v : PyVal) : PyVal :=
  if !pyTruthy v then .str ""
  else
    let url := pyStrip (pyStr v)
    .str (if url ≠ "" ∧ ¬(pyStartsWith url "http://" || pyStartsWith url "https://")
          then "https://" ++ url else url)

/-- The ordered format list of `_clean_date` (adds `%Y-%m-%d %H:%M:%S`). -/
def cleanDateFmts : List DateFmt :=
  [fmtYMDdash, fmtYMDslash, fmtYMDcjk, fmtMDdash, fmtMDslash, fmtYMDHMS]

/-- The cleaner's format loop: first success, no year substitution. -/
def tryCleanDateFmts : List DateFmt → String → Option DateTime
  | [], _ => Option.none
  | f :: fs, s =>
    match pyStrptime f.toks s with
    | some p => some p
    | Option.none => tryCleanDateFmts fs s

/-- `_clean_date`: absent/unparseable dates stay `None`. -/
def cleanDate (v : PyVal) : PyVal :=
  match v with
  | .none => .none
  | .date d => .date d
  | .str s =>
    match tryCleanDateFmts cleanDateFmts s with
    | some d => .date d
    | Option.none => .none
  | _ => .none

/-- `_clean_batch`: exact lookup in `batch_mapping` (identity table). -/
def cleanBatch (v : PyVal) : PyVal :=
  if !pyTruthy v then .str ""
  else
    let text := pyStrip (pyStr v)
    .str ((batchKeywords.lookup text).getD text)

/-- The `type_mapping` of `_normalize_company_type`. -/
def companyTypeMapping : List (String × String) :=
  [("民营", "民营企业"), ("国企", "国有企业"), ("央企", "央企"),
   ("外企", "外资企业"), ("创业", "创业公司")]

/-- `DataCleaner._normalize_company_type`. -/
def cleanCompanyType (v : PyVal) : PyVal :=
  if !pyTruthy v then .str ""
  else
    let text := pyStrip (pyStr v)
    match findFuzzyOption COMPANY_TYPE_OPTIONS text with
    | some o => .str o
    | Option.none =>
      match findBatchKeyword companyTypeMapping text with
      | some val => .str val
      | Option.none => .str (if text = "" then "" else "其他")

/-- The `industry_mapping` of `_normalize_industry`. -/
def industryMapping : List (String × String) :=
  [("IT", "互联网"), ("软件", "互联网"), ("电商", "互联网"), ("游戏", "互联网"),
   ("银行", "金融"), ("证券", "金融"), ("基金", "金融"), ("保险", "金融")]

/-- `DataCleaner._normalize_industry`. -/
def cleanIndustry (v : PyVal) : PyVal :=
  if !pyTruthy v then .str ""
  else
    let x : PyVal :=
      match v with
      | .list [] => .str ""
      | .list (a :: _) => a
      | w => w
    let text := pyStrip (pyStr x)
    match findFuzzyOption INDUSTRY_OPTIONS text with
    | some o => .str o
    | Option.none =>
      match findBatchKeyword industryMapping text with
      | some val => .str val
      | Option.none => .str (if text = "" then "" else "其他")

/-- The separator list of the cleaner's `_normalize_city` (adds `' '`). -/
def cleanCitySeparators : List Char := [',', '、', '/', '|', ' ', '；', ';']

/-- `DataCleaner._normalize_city`. -/
def cleanCity (v : PyVal) : PyVal :=
  if !pyTruthy v then .list []
  else
    match v with
    | .list l => .list ((l.filter pyTruthy).map fun c => .str (pyStrip (pyStr c)))
    | .str s =>
      let cities : List String :=
        match findSepChar cleanCitySeparators s with
        | some sep => ((pySplitOn sep s).map pyStrip).filter fun t => t ≠ ""
        | Option.none => []
      let cities :=
        if cities.isEmpty then (if pyStrip s = "" then [] else [pyStrip s]) else cities
      .list (cities.map .str)
    | _ => .list []

/-- The `edu_mapping` of `_normalize_education`. -/
def eduMapping : List (String × String) :=
  [("本科", "本科"), ("学士", "本科"), ("硕士", "硕士"), ("研究生", "硕士"),
   ("博士", "博士"), ("不限", "不限")]

/-- `DataCleaner._normalize_education`. -/
def cleanEducation (v : PyVal) : PyVal :=
  if !pyTruthy v then .str ""
  else
    let text := pyStrip (pyStr v)
    match findFuzzyOption EDUCATION_OPTIONS text with
    | some o => .str o
    | Option.none =>
      match findBatchKeyword eduMapping text with
      | some val => .str val
      | Option.none => .str (if text = "" then "" else "本科及以上")

/-- `DataCleaner._normalize_target`. -/
def cleanTarget (v : PyVal) : PyVal :=
  if !pyTruthy v then .list []
  else
    match v with
    | .list l => .list ((l.filter pyTruthy).map fun t => .str (pyStrip (pyStr t)))
    | .str s =>
      let text := pyStrip s
      let targets := TARGET_OPTIONS.filter fun o => pyContains o text
      .list ((if targets.isEmpty then ["2026届"] else targets).map .str)
    | _ => .list []

/-- `_clean_boolean`. -/
def cleanBoolean (v : PyVal) : PyVal :=
  match v with
  | .bool b => .bool b
  | .str s =>
    .bool (["yes", "是", "true", "1", "免笔试", "免笔"].contains (pyLower (pyStrip s)))
  | v => .bool (pyTruthy v)

/-- `_clean_referral_code`. -/
def cleanReferralCode (v : PyVal) : PyVal :=
  if !pyTruthy v then .str ""
  else .str (pyRemoveChar ' ' (pyStrip (pyStr v)))

/-- `DataCleaner.clean_record`: counter bumps, the required-field gate, then
field-by-field re-assignment into a copy of the input record. -/
def cleanRecord (stats : CleanStats) (record : PyDict) : Option PyDict × CleanStats :=
  let stats := { stats with processed := stats.processed + 1 }
  if !isValidRecord record then
    (Option.none, { stats with invalid := stats.invalid + 1 })
  else
    let stats := { stats with cleaned := stats.cleaned + 1 }
    let cleaned := record
    let cleaned := dictSet cleaned "company_name" (cleanCompanyName (dictGet record "company_name"))
    let cleaned := dictSet cleaned "position" (cleanPosition (dictGet record "position"))
    let cleaned := dictSet cleaned "source" (cleanUrl (dictGet record "source"))
    let cleaned := dictSet cleaned "publish_date" (cleanDate (dictGet record "publish_date"))
    let cleaned := dictSet cleaned "deadline" (cleanDate (dictGet record "deadline"))
    let cleaned := dictSet cleaned "batch" (cleanBatch (dictGet record "batch"))
    let cleaned := dictSet cleaned "company_type" (cleanCompanyType (dictGet record "company_type"))
    let cleaned := dictSet cleaned "industry" (cleanIndustry (dictGet record "industry"))
    let cleaned := dictSet cleaned "city" (cleanCity (dictGet record "city"))
    let cleaned := dictSet cleaned "education" (cleanEducation (dictGet record "education"))
    let cleaned := dictSet cleaned "target" (cleanTarget (dictGet record "target"))
    let cleaned := dictSet cleaned "no_written_test" (cleanBoolean (dictGet record "no_written_test"))
    let cleaned := dictSet cleaned "referral_code" (cleanReferralCode (dictGet record "referral_code"))
    (some cleaned, stats)

/-! ## Feishu field serialization (`config/feishu_config.py`) -/

/-- `FIELD_MAPPING`: internal canonical name → Feishu field name. -/
def FIELD_MAPPING : List (String × String) :=
  [("publish_date", "岗位更新"), ("batch", "批次"), ("company_name", "公司名称"),
   ("company_type", "企业类型"), ("industry", "行业"), ("city", "工作城市"),
   ("position", "岗位"), ("education", "学历要求"), ("deadline", "截止时间"),
   ("target", "招聘对象"), ("no_written_test", "免笔试"), ("source", "信息来源"),
   ("referral_code", "内推码")]

/-- `FIELD_TYPES`: internal canonical name → Feishu field type. -/
def FIELD_TYPES : List (String × String) :=
  [("publish_date", "date"), ("batch", "text"), ("company_name", "text"),
   ("company_type", "select"), ("industry", "multiSelect"), ("city", "multiSelect"),
   ("position", "text"), ("education", "select"), ("deadline", "date"),
   ("target", "multiSelect"), ("no_written_test", "checkbox"), ("source", "url"),
   ("referral_code", "text")]

/-- The typed payload dict built by `get_feishu_field_value`
(`{"field_id": ..., <type key>: ...}`). -/
inductive FeishuFieldVal where
  | date (fieldId : String) (dateStr : String)
  | select (fieldId : String) (name : PyVal)
  | multiSelect (fieldId : String) (names : List PyVal)
  | checkbox (fieldId : String) (b : Bool)
  | url (fieldId : String) (u : String)
  | text (fieldId : String) (t : String)
deriving DecidableEq, Repr

/-- `get_feishu_field_value`: `None`/`""` yields `None`; otherwise a payload
dict keyed by the field's configured type. -/
def getFeishuFieldValue (internalField : String) (value : PyVal) : Option FeishuFieldVal :=
  let fieldType := (FIELD_TYPES.lookup internalField).getD "text"
  let feishuField := (FIELD_MAPPING.lookup internalField).getD internalField
  if value = .none ∨ value = .str "" then Option.none
  else some <|
    match fieldType with
    | "date" =>
      .date feishuField
        (match value with
         | .date d => strftimeYMD d
         | v => pyStr v)
    | "select" => .select feishuField value
    | "multiSelect" =>
      .multiSelect feishuField
        (match value with
         | .list l => l
         | v => [v])
    | "checkbox" => .checkbox feishuField (pyTruthy value)
    | "url" => .url feishuField (pyStr value)
    | _ => .text feishuField (pyStr value)

/-- Insertion-ordered assignment for association lists (dict `[k] = v`). -/
def listSet (d : List (String × β)) (k : String) (v : β) : List (String × β) :=
  match d with
  | [] => [(k, v)]
  | (k0, v0) :: rest =>
    if k0 = k then (k0, v) :: rest else (k0, v0) :: listSet rest k v

/-- The `fields` dict of a Feishu record payload. -/
abbrev FeishuFields := List (String × FeishuFieldVal)

/-- `build_feishu_record(data)["fields"]` (the source wraps the dict in
`{"fields": ...}` and the reconciler immediately unwraps it). -/
def buildFeishuRecord (data : PyDict) : FeishuFields :=
  data.foldl
    (fun fields kv =>
      if (FIELD_MAPPING.lookup kv.1).isSome then
        match getFeishuFieldValue kv.1 kv.2 with
        | some fv => listSet fields ((FIELD_MAPPING.lookup kv.1).getD kv.1) fv
        | Option.none => fields
      else fields)
    []

/-! ## Reconciler (`feishu/bitable.py` and the chunked calls of
`feishu/client.py`) -/

/-- A record fetched from the remote table. -/
structure RemoteRecord where
  recordId : Option String
  fields : PyDict
deriving DecidableEq, Repr

/-- One entry of `_build_existing_map`. -/
structure ExistingEntry where
  recordId : Option String
  fields : PyDict
deriving DecidableEq, Repr

/-- One element of the `records_to_update` queue. -/
structure UpdateItem where
  recordId : Option String
  fields : FeishuFields
deriving DecidableEq, Repr

/-- `RecruitmentTable._get_duplicate_key`:
`f"{company}|{position}|{date}"` over `data.get(..., "")`. -/
def getDuplicateKey (data : PyDict) : String :=
  pyStr (dictGetD data "company_name" (.str "")) ++ "|" ++
    pyStr (dictGetD data "position" (.str "")) ++ "|" ++
    pyStr (dictGetD data "publish_date" (.str ""))

/-- The existing-map key of one remote record (`_build_existing_map` body). -/
def remoteKey (r : RemoteRecord) : String :=
  pyStr (dictGetD r.fields ((FIELD_MAPPING.lookup "company_name").getD "") (.str "")) ++ "|" ++
    pyStr (dictGetD r.fields ((FIELD_MAPPING.lookup "position").getD "") (.str "")) ++ "|" ++
    pyStr (dictGetD r.fields ((FIELD_MAPPING.lookup "publish_date").getD "") (.str ""))

/-- Generic insertion-ordered map overwrite for existing-map entries. -/
def existingSet (d : List (String × ExistingEntry)) (k : String) (v : ExistingEntry) :
    List (String × ExistingEntry) :=
  match d with
  | [] => [(k, v)]
  | (k0, v0) :: rest =>
    if k0 = k then (k0, v) :: rest else (k0, v0) :: existingSet rest k v

/-- `RecruitmentTable._build_existing_map`. -/
def buildExistingMap (records : List RemoteRecord) : List (String × ExistingEntry) :=
  records.foldl
    (fun m r => existingSet m (remoteKey r) ⟨r.recordId, r.fields⟩) []

/-- The create/update partition loop of `add_recruitments` (each iteration
appends to `records_to_update` or `records_to_create`, preserving order). -/
def partitionRecs (existingMap : List (String × ExistingEntry)) :
    List PyDict → List FeishuFields × List UpdateItem
  | [] => ([], [])
  | data :: rest =>
    let acc := partitionRecs existingMap rest
    match existingMap.lookup (getDuplicateKey data) with
    | some ex => (acc.1, ⟨ex.recordId, buildFeishuRecord data⟩ :: acc.2)
    | Option.none => (buildFeishuRecord data :: acc.1, acc.2)

/-- The remote-store collaborator: `get_all_records` plus one `_make_request`
per 500-record chunk for batch create/update (each may raise). -/
structure FeishuClientModel where
  getAllRecords : Except String (List RemoteRecord)
  createCall : List FeishuFields → Except String Unit
  updateCall : List UpdateItem → Except String Unit

/-- Issue one transport call per chunk, propagating the first exception. -/
def runChunks (call : α → Except String Unit) : List α → Except String Unit
  | [] => .ok ()
  | c :: cs =>
    match call c with
    | .error e => .error e
    | .ok _ => runChunks call cs

/-- `FeishuClient.batch_create_records`: split into batches of 500. -/
def batchCreateRecords (client : FeishuClientModel) (records : List FeishuFields) :
    Except String Unit :=
  runChunks client.createCall (chunksOf 500 records)

/-- `FeishuClient.batch_update_records`: split into batches of 500. -/
def batchUpdateRecords (client : FeishuClientModel) (updates : List UpdateItem) :
    Except String Unit :=
  runChunks client.updateCall (chunksOf 500 updates)

/-- The `{"created", "updated", "failed", "skipped"}` result dict. -/
structure BatchResult where
  created : Nat
  updated : Nat
  failed : Nat
  skipped : Nat
deriving DecidableEq, Repr

/-- `RecruitmentTable.add_recruitments`: fetch-existing, partition, chunked
create, chunked update; `except Exception` keeps the result counters
accumulated so far and sets `failed = len(data_list)`. -/
def addRecruitments (client : FeishuClientModel) (dataList : List PyDict) : BatchResult :=
  match client.getAllRecords with
  | .error _ => ⟨0, 0, dataList.length, 0⟩
  | .ok ex =>
    let m := buildExistingMap ex
    let (toCreate, toUpdate) := partitionRecs m dataList
    let afterCreate : Except String Nat :=
      if toCreate.isEmpty then .ok 0
      else
        match batchCreateRecords client toCreate with
        | .error e => .error e
        | .ok _ => .ok toCreate.length
    match afterCreate with
    | .error _ => ⟨0, 0, dataList.length, 0⟩
    | .ok created =>
      if toUpdate.isEmpty then ⟨created, 0, 0, 0⟩
      else
        match batchUpdateRecords client toUpdate with
        | .error _ => ⟨created, 0, dataList.length, 0⟩
        | .ok _ => ⟨created, toUpdate.length, 0, 0⟩

/-! ## Specification helpers and concrete fixtures -/

/-- Number of records in `rs` whose dedup hash is `h`. -/
def countHash (h : String) (rs : List PyDict) : Nat :=
  (rs.filter fun r => generateHash r = h).length

/-- "Missing, empty, or whitespace-only after trimming". -/
def blankVal (v : PyVal) : Prop :=
  v = .none ∨ ∃ s, v = .str s ∧ pyStrip s = ""

/-- Two records agree on the `DEDUPLICATION_FIELDS` components, comparing
list-typed components up to reordering. -/
def hashFieldsAgree (r1 r2 : PyDict) : Prop :=
  ∀ f ∈ DEDUPLICATION_FIELDS,
    dictGetD r1 f (.str "") = dictGetD r2 f (.str "") ∨
    ∃ l1 l2, dictGetD r1 f (.str "") = .list l1 ∧ dictGetD r2 f (.str "") = .list l2 ∧
      l1.Perm l2

/-- A fixed "current time" for concrete scenarios. -/
def sampleNow : DateTime := ⟨2026, 10, 12, 9, 30, 0, 0⟩

/-- A record whose DedupKey is absent from the sample remote store. -/
def dataA : PyDict :=
  [("company_name", .str "A"), ("position", .str "P"), ("publish_date", .str "2026-01-01")]

/-- A record whose DedupKey is present in the sample remote store. -/
def dataB : PyDict :=
  [("company_name", .str "B"), ("position", .str "P"), ("publish_date", .str "2026-01-01")]

/-- The remote row matching `dataB`'s DedupKey. -/
def remoteB : RemoteRecord :=
  ⟨some "recB", [("公司名称", .str "B"), ("岗位", .str "P"), ("岗位更新", .str "2026-01-01")]⟩

/-- A transport whose chunked-update call raises. -/
def clientUpdateFails : FeishuClientModel :=
  ⟨.ok [remoteB], fun _ => .ok (), fun _ => .error "TransportError"⟩

/-- A transport on which every call succeeds. -/
def clientOk : FeishuClientModel :=
  ⟨.ok [remoteB], fun _ => .ok (), fun _ => .ok ()⟩

/-! ## Lemmas about the embedding -/

theorem isDuplicate_cache (cache : Cache) (stats : DedupStats) (r : PyDict) :
    (isDuplicate cache stats r).2.1 = cache := rfl

theorem filterDuplicatesGo_cache (records : List PyDict) :
    ∀ (cache : Cache) (stats : DedupStats) (seen : List String),
      (filterDuplicatesGo cache stats seen records).2.1 = cache := by
  induction records with
  | nil => intro cache stats seen; rfl
  | cons r rs ih =>
    intro cache stats seen
    simp only [filterDuplicatesGo]
    split
    · exact ih ..
    · split
      · rw [ih]; rfl
      · rw [ih]; rfl

theorem runChunks_ok (call : α → Except String Unit) (h : ∀ c, call c = .ok ()) :
    ∀ chunks, runChunks call chunks = .ok () := by
  intro chunks
  induction chunks with
  | nil => rfl
  | cons c cs ih => simp only [runChunks, h c, ih]

theorem partitionRecs_lengths (m : List (String × ExistingEntry)) (dataList : List PyDict) :
    (partitionRecs m dataList).1.length =
      (dataList.filter fun d => (m.lookup (getDuplicateKey d)).isNone).length ∧
    (partitionRecs m dataList).2.length =
      (dataList.filter fun d => (m.lookup (getDuplicateKey d)).isSome).length := by
  induction dataList with
  | nil => exact ⟨rfl, rfl⟩
  | cons d rest ih =>
    simp only [partitionRecs, List.filter]
    cases hl : m.lookup (getDuplicateKey d) with
    | none => simp [hl, ih.1, ih.2]
    | some e => simpa [hl] using ⟨ih.1, ih.2⟩

theorem chunksOfGo_length_le (n : Nat) :
    ∀ (fuel : Nat) (l : List α), ∀ c ∈ chunksOfGo n fuel l, c.length ≤ n := by
  intro fuel
  induction fuel with
  | zero => intro l c hc; simp [chunksOfGo] at hc
  | succ f ih =>
    intro l c hc
    cases l with
    | nil => simp [chunksOfGo] at hc
    | cons x xs =>
      simp only [chunksOfGo, List.mem_cons] at hc
      rcases hc with h | h
      · subst h; simpa using List.length_take_le n (x :: xs)
      · exact ih _ c h

theorem chunksOfGo_flatten (n : Nat) (hn : 0 < n) :
    ∀ (fuel : Nat) (l : List α), l.length ≤ fuel → (chunksOfGo n fuel l).flatten = l := by
  intro fuel
  induction fuel with
  | zero =>
    intro l hl
    have : l = [] := List.length_eq_zero.mp (Nat.le_zero.mp hl)
    subst this; rfl
  | succ f ih =>
    intro l hl
    cases l with
    | nil => rfl
    | cons x xs =>
      simp only [chunksOfGo, List.flatten_cons]
      have hl2 : xs.length + 1 ≤ f + 1 := by simpa using hl
      rw [ih ((x :: xs).drop n) (by rw [List.length_drop]; simp; omega)]
      exact List.take_append_drop n (x :: xs)

theorem chunksOf_length_le (n : Nat) (l : List α) :
    ∀ c ∈ chunksOf n l, c.length ≤ n := by
  intro c hc
  unfold chunksOf at hc
  split at hc
  · simp at hc
  · exact chunksOfGo_length_le n l.length l c hc

theorem chunksOf_flatten (n : Nat) (hn : 0 < n) (l : List α) :
    (chunksOf n l).flatten = l := by
  unfold chunksOf
  rw [if_neg (by omega)]
  exact chunksOfGo_flatten n hn l.length l le_rfl

/-! ## Claim theorems -/

/-- C10: filtering is read-only on the persistent cache — `filter_duplicates`
and the `is_duplicate` lookups it performs insert, update and delete no
cache row, so records it returns are not recorded as seen until the caller
invokes `add_record`. -/
theorem C10_filtering_readonly (cache : Cache) (stats : DedupStats)
    (records : List PyDict) (r : PyDict) :
    (filterDuplicates cache stats records).2.1 = cache ∧
    (isDuplicate cache stats r).2.1 = cache :=
  ⟨filterDuplicatesGo_cache records cache stats [], rfl⟩

/-- C3 (code bug): `cleanup_old_records` computes the cutoff with
`cutoff.replace(day=cutoff.day - days)`, so whenever `days` is at least the
current day-of-month (in particular for the default `days = 90`) the call
raises `ValueError` and deletes nothing, instead of removing entries older
than `now - days`. -/
theorem C3_cleanup_day_replace_raises (cache : Cache) (days : Nat) (now : DateTime)
    (h : now.day ≤ days) :
    cleanupOldRecords cache days now =
      .error "ValueError: day is out of range for month" := by
  unfold cleanupOldRecords
  rw [if_neg]
  intro hc
  simp at hc
  omega

/-- Witness for C3: the default retention `days = 90` raises on 2026-10-12. -/
theorem C3_cleanup_day_replace_raises_witness :
    cleanupOldRecords [] 90 sampleNow =
      .error "ValueError: day is out of range for month" :=
  C3_cleanup_day_replace_raises [] 90 sampleNow (by decide)

/-- C2 counterexample: a conflicting `add_record` **without** a remote id
does not leave the stored remote id unchanged — it clears it to `NULL`
(the `UPDATE` always writes `feishu_record_id = ?` with the argument). -/
theorem C2_counterexample :
    (addRecord [] dataA (some "rec1") sampleNow).map (fun e => e.feishuRecordId) =
      [some "rec1"] ∧
    (addRecord (addRecord [] dataA (some "rec1") sampleNow) dataA Option.none
        ⟨2026, 10, 13, 0, 0, 0, 0⟩).map (fun e => e.feishuRecordId) =
      [Option.none] :=
  ⟨rfl, rfl⟩

/-- C2 (amended): on a conflicting add, the entry with the record's hash gets
`last_seen = now` and `remote_id` **always overwritten with the supplied
argument** (`NULL` when absent); all other fields of that entry and all other
entries are unchanged, and no row is added or removed. -/
theorem C2_add_record_reseen (cache : Cache) (record : PyDict) (rid : Option String)
    (now : DateTime)
    (hmem : generateHash record ∈ cache.map fun e => e.recordHash) :
    (addRecord cache record rid now).length = cache.length ∧
    (∀ e ∈ cache, e.recordHash ≠ generateHash record →
      e ∈ addRecord cache record rid now) ∧
    (∀ e ∈ cache, e.recordHash = generateHash record →
      { e with lastSeen := isoformat now, feishuRecordId := rid } ∈
        addRecord cache record rid now) := by
  have hany : (cache.any fun e => e.recordHash == generateHash record) = true := by
    simp only [List.any_eq_true, beq_iff_eq]
    simpa [List.mem_map] using hmem
  simp only [addRecord, hany, if_true]
  refine ⟨by simp, ?_, ?_⟩
  · intro e he hne
    refine List.mem_map.mpr ⟨e, he, ?_⟩
    rw [if_neg (by simp [hne])]
  · intro e he heq
    refine List.mem_map.mpr ⟨e, he, ?_⟩
    rw [if_pos (by simp [heq])]

/-- Witness for C2 (amended): re-adding `dataA` with no remote id keeps the
cache size at one row. -/
theorem C2_add_record_reseen_witness :
    (addRecord (addRecord [] dataA (some "rec1") sampleNow) dataA Option.none
        ⟨2026, 10, 13, 0, 0, 0, 0⟩).length =
      (addRecord [] dataA (some "rec1") sampleNow).length :=
  (C2_add_record_reseen (addRecord [] dataA (some "rec1") sampleNow) dataA Option.none
    ⟨2026, 10, 13, 0, 0, 0, 0⟩ (by decide)).1

/-- C1 counterexample: with one record queued for create and one for update,
a transport exception in the chunked-update phase yields
`{created = 1, updated = 0, failed = 2}` — `failed` covers the whole batch,
but `created = 1` still conveys the create-phase success, contradicting
"no partial credit". -/
theorem C1_counterexample :
    addRecruitments clientUpdateFails [dataA, dataB] =
      { created := 1, updated := 0, failed := 2, skipped := 0 } := rfl

/-- C1 (amended): any exception aborts the call and reports
`failed = len(batch)`; `created` and `updated` stay `0` when the exception is
in the fetch-existing or chunked-create phase, but an exception in the
chunked-update phase leaves `created` at the size of the create queue
(create-phase credit survives). -/
theorem C1_failure_reporting (client : FeishuClientModel) (dataList : List PyDict) :
    (∀ e, client.getAllRecords = .error e →
      addRecruitments client dataList = ⟨0, 0, dataList.length, 0⟩) ∧
    (∀ ex e, client.getAllRecords = .ok ex →
      batchCreateRecords client (partitionRecs (buildExistingMap ex) dataList).1 =
        .error e →
      addRecruitments client dataList = ⟨0, 0, dataList.length, 0⟩) ∧
    (∀ ex e, client.getAllRecords = .ok ex →
      batchCreateRecords client (partitionRecs (buildExistingMap ex) dataList).1 =
        .ok () →
      batchUpdateRecords client (partitionRecs (buildExistingMap ex) dataList).2 =
        .error e →
      addRecruitments client dataList =
        ⟨(partitionRecs (buildExistingMap ex) dataList).1.length, 0,
          dataList.length, 0⟩) := by
  refine ⟨?_, ?_, ?_⟩
  · intro e he
    simp only [addRecruitments, he]
  · intro ex e hg hc
    rcases hp : partitionRecs (buildExistingMap ex) dataList with ⟨tc, tu⟩
    rw [hp] at hc
    simp only at hc
    simp only [addRecruitments, hg, hp]
    by_cases htc : tc.isEmpty
    · exfalso
      rw [List.isEmpty_iff.mp htc] at hc
      simp [batchCreateRecords, chunksOf, runChunks] at hc
    · simp only [htc, Bool.false_eq_true, if_false, hc]
  · intro ex e hg hok hupd
    rcases hp : partitionRecs (buildExistingMap ex) dataList with ⟨tc, tu⟩
    rw [hp] at hok hupd
    simp only at hok hupd ⊢
    simp only [addRecruitments, hg, hp]
    have htu : ¬tu.isEmpty = true := by
      intro h
      rw [List.isEmpty_iff.mp h] at hupd
      simp [batchUpdateRecords, chunksOf, runChunks] at hupd
    by_cases htc : tc.isEmpty
    · have : tc = [] := List.isEmpty_iff.mp htc
      subst this
      simp only [List.isEmpty_nil, if_true, htu, Bool.false_eq_true, if_false, hupd,
        List.length_nil]
    · simp only [htc, Bool.false_eq_true, if_false, hok, htu, hupd]

/-- Witness for C1 (amended): the update-phase-failure case at a concrete
client and batch. -/
theorem C1_failure_reporting_witness :
    addRecruitments clientUpdateFails [dataA, dataB] =
      ⟨(partitionRecs (buildExistingMap [remoteB]) [dataA, dataB]).1.length, 0, 2, 0⟩ :=
  (C1_failure_reporting clientUpdateFails [dataA, dataB]).2.2
    [remoteB] "TransportError" rfl rfl rfl

/-- C4: on a fully successful reconcile over records with pairwise-distinct
DedupKeys, `created` is the number of records whose key is absent remotely,
`updated` the number whose key is present, and every chunked create/update
call carries at most 500 records with no record split or lost across chunk
boundaries. -/
theorem C4_reconcile_partition (client : FeishuClientModel) (dataList : List PyDict)
    (ex : List RemoteRecord)
    (hg : client.getAllRecords = .ok ex)
    (hc : ∀ chunk, client.createCall chunk = .ok ())
    (hu : ∀ chunk, client.updateCall chunk = .ok ())
    (huniq : (dataList.map getDuplicateKey).Nodup) :
    addRecruitments client dataList =
      ⟨(dataList.filter fun d =>
          ((buildExistingMap ex).lookup (getDuplicateKey d)).isNone).length,
        (dataList.filter fun d =>
          ((buildExistingMap ex).lookup (getDuplicateKey d)).isSome).length, 0, 0⟩ ∧
    (∀ c ∈ chunksOf 500 (partitionRecs (buildExistingMap ex) dataList).1,
      c.length ≤ 500) ∧
    (chunksOf 500 (partitionRecs (buildExistingMap ex) dataList).1).flatten =
      (partitionRecs (buildExistingMap ex) dataList).1 ∧
    (∀ c ∈ chunksOf 500 (partitionRecs (buildExistingMap ex) dataList).2,
      c.length ≤ 500) ∧
    (chunksOf 500 (partitionRecs (buildExistingMap ex) dataList).2).flatten =
      (partitionRecs (buildExistingMap ex) dataList).2 := by
  refine ⟨?_, chunksOf_length_le 500 _, chunksOf_flatten 500 (by omega) _,
    chunksOf_length_le 500 _, chunksOf_flatten 500 (by omega) _⟩
  have hlen := partitionRecs_lengths (buildExistingMap ex) dataList
  rcases hp : partitionRecs (buildExistingMap ex) dataList with ⟨tc, tu⟩
  rw [hp] at hlen
  simp only at hlen
  simp only [addRecruitments, hg, hp]
  have hcreate : batchCreateRecords client tc = .ok () :=
    runChunks_ok client.createCall hc _
  have hupdate : batchUpdateRecords client tu = .ok () :=
    runChunks_ok client.updateCall hu _
  by_cases htc : tc.isEmpty
  · have htc0 : tc = [] := List.isEmpty_iff.mp htc
    subst htc0
    by_cases htu : tu.isEmpty
    · have htu0 : tu = [] := List.isEmpty_iff.mp htu
      subst htu0
      simp only [List.isEmpty_nil, if_true]
      rw [← hlen.1, ← hlen.2]
      rfl
    · simp only [List.isEmpty_nil, if_true, htu, Bool.false_eq_true, if_false, hupdate]
      rw [← hlen.1, ← hlen.2]
      rfl
  · by_cases htu : tu.isEmpty
    · have htu0 : tu = [] := List.isEmpty_iff.mp htu
      subst htu0
      simp only [htc, Bool.false_eq_true, if_false, hcreate, List.isEmpty_nil, if_true]
      rw [← hlen.1, ← hlen.2]
      rfl
    · simp only [htc, Bool.false_eq_true, if_false, hcreate, htu, hupdate]
      rw [← hlen.1, ← hlen.2]

/-- Witness for C4: one create (absent key) and one update (present key) on a
fully successful transport. -/
theorem C4_reconcile_partition_witness :
    addRecruitments clientOk [dataA, dataB] = ⟨1, 1, 0, 0⟩ :=
  ((C4_reconcile_partition clientOk [dataA, dataB] [remoteB] rfl (fun _ => rfl)
      (fun _ => rfl) (by decide)).1).trans (by rfl)

theorem countHash_cons (h : String) (r : PyDict) (rs : List PyDict) :
    countHash h (r :: rs) =
      (if generateHash r = h then 1 else 0) + countHash h rs := by
  by_cases hr : generateHash r = h
  · simp [countHash, List.filter_cons, hr, Nat.add_comm]
  · simp [countHash, List.filter_cons, hr]

theorem filterGo_seen (records : List PyDict) :
    ∀ (cache : Cache) (stats : DedupStats) (seen : List String) (h : String),
      seen.contains h = true →
      countHash h (filterDuplicatesGo cache stats seen records).1 = 0 ∧
      (filterDuplicatesGo cache stats seen records).2.2.2.count h = 0 := by
  induction records with
  | nil => intro cache stats seen h _; exact ⟨rfl, rfl⟩
  | cons r rs ih =>
    intro cache stats seen h hseen
    simp only [filterDuplicatesGo]
    by_cases hc : seen.contains (generateHash r) = true
    · simp only [hc, if_true]
      exact ih cache _ seen h hseen
    · have hr : generateHash r ≠ h := fun he => hc (he ▸ hseen)
      simp only [hc, Bool.false_eq_true, if_false]
      split
      · have := ih (isDuplicate cache stats r).2.1 (isDuplicate cache stats r).2.2
          seen h hseen
        exact ⟨this.1, by simpa [List.count_cons, hr] using this.2⟩
      · have := ih (isDuplicate cache stats r).2.1 (isDuplicate cache stats r).2.2
          (generateHash r :: seen) h
          (by simp only [List.contains_cons, Bool.or_eq_true]; exact Or.inr hseen)
        exact ⟨by simpa [countHash_cons, hr] using this.1,
          by simpa [List.count_cons, hr] using this.2⟩

theorem filterGo_new (records : List PyDict) :
    ∀ (cache : Cache) (stats : DedupStats) (seen : List String) (h : String),
      seen.contains h = false → (∀ e ∈ cache, e.recordHash ≠ h) →
      countHash h (filterDuplicatesGo cache stats seen records).1 =
        min 1 (countHash h records) ∧
      (filterDuplicatesGo cache stats seen records).2.2.2.count h =
        min 1 (countHash h records) := by
  induction records with
  | nil => intro cache stats seen h _ _; exact ⟨rfl, rfl⟩
  | cons r rs ih =>
    intro cache stats seen h hseen hcache
    by_cases hr : generateHash r = h
    · subst hr
      have hdup : (isDuplicate cache stats r).1 = false := by
        simp only [isDuplicate]
        simp only [List.any_eq_false, beq_iff_eq]
        intro e he
        exact hcache e he
      simp only [filterDuplicatesGo, hseen, Bool.false_eq_true, if_false, hdup]
      have hrest := filterGo_seen rs (isDuplicate cache stats r).2.1
        (isDuplicate cache stats r).2.2 (generateHash r :: seen) (generateHash r)
        (by simp [List.contains_cons])
      constructor
      · have h1 := hrest.1
        rw [countHash_cons, countHash_cons, h1]
        simp
      · have h2 := hrest.2
        rw [List.count_cons, countHash_cons, h2]
        simp
    · simp only [filterDuplicatesGo]
      rw [countHash_cons, if_neg hr]
      by_cases hc : seen.contains (generateHash r) = true
      · simp only [hc, if_true]
        simpa using ih cache _ seen h hseen hcache
      · simp only [hc, Bool.false_eq_true, if_false]
        have hcache2 : ∀ e ∈ (isDuplicate cache stats r).2.1, e.recordHash ≠ h := by
          rw [isDuplicate_cache]; exact hcache
        split
        · have := ih (isDuplicate cache stats r).2.1 (isDuplicate cache stats r).2.2
            seen h hseen hcache2
          exact ⟨by simpa using this.1,
            by simpa [List.count_cons, hr] using this.2⟩
        · have := ih (isDuplicate cache stats r).2.1 (isDuplicate cache stats r).2.2
            (generateHash r :: seen) h
            (by simp only [List.contains_cons, hseen, Bool.or_false,
                  beq_eq_false_iff_ne, ne_eq]
                exact fun hq => hr hq.symm)
            hcache2
          exact ⟨by simpa [countHash_cons, hr] using this.1,
            by simpa [List.count_cons, hr] using this.2⟩

theorem filterGo_subset (records : List PyDict) :
    ∀ (cache : Cache) (stats : DedupStats) (seen : List String),
      ∀ r ∈ (filterDuplicatesGo cache stats seen records).1, r ∈ records := by
  induction records with
  | nil => intro cache stats seen r hr; exact absurd hr (by simp [filterDuplicatesGo])
  | cons q rs ih =>
    intro cache stats seen r hr
    simp only [filterDuplicatesGo] at hr
    split at hr
    · exact List.mem_cons_of_mem q (ih cache _ seen r hr)
    · split at hr
      · exact List.mem_cons_of_mem q (ih _ _ seen r hr)
      · rcases List.mem_cons.mp hr with hq | hq
        · exact hq ▸ List.mem_cons_self r rs
        · exact List.mem_cons_of_mem q (ih _ _ _ r hq)

/-- C7: in a batch containing (at least) two records with the same dedup hash
that is not in the persistent store, `filter_duplicates` returns exactly one
record with that hash (an element of the batch), and exactly one
`is_duplicate` store lookup occurs for that hash — the within-batch duplicate
is suppressed by the in-memory seen set before it reaches the store. -/
theorem C7_two_level_dedup (cache : Cache) (stats : DedupStats)
    (records : List PyDict) (h : String)
    (hcache : ∀ e ∈ cache, e.recordHash ≠ h)
    (hdup : 2 ≤ countHash h records) :
    countHash h (filterDuplicates cache stats records).1 = 1 ∧
    (filterDuplicates cache stats records).2.2.2.count h = 1 ∧
    ∀ r ∈ (filterDuplicates cache stats records).1, r ∈ records := by
  have hmain := filterGo_new records cache stats [] h rfl hcache
  have hmin : min 1 (countHash h records) = 1 := by omega
  exact ⟨by rw [filterDuplicates, hmain.1, hmin],
    by rw [filterDuplicates, hmain.2, hmin],
    filterGo_subset records cache stats []⟩

/-- Witness for C7: a batch of two copies of `dataA` over an empty cache. -/
theorem C7_two_level_dedup_witness :
    countHash (generateHash dataA)
      (filterDuplicates [] ⟨0, 0, 0⟩ [dataA, dataA]).1 = 1 ∧
    (filterDuplicates [] ⟨0, 0, 0⟩ [dataA, dataA]).2.2.2.count (generateHash dataA) = 1 := by
  have := C7_two_level_dedup [] ⟨0, 0, 0⟩ [dataA, dataA] (generateHash dataA)
    (by simp) (by decide)
  exact ⟨this.1, this.2.1⟩

theorem blank_bad (v : PyVal) (hb : blankVal v) : requiredFieldBad v = true := by
  rcases hb with h | ⟨s, hs, hstrip⟩
  · subst h; rfl
  · subst hs
    simp only [requiredFieldBad, Bool.or_eq_true]
    right
    simp [hstrip]

/-- C6: `clean_record` rejects (returns `None` and bumps `invalid` by one)
exactly when `company_name` or `position` is missing, empty, or
whitespace-only; with both fields non-blank strings the record is never
rejected, whatever the other fields hold. -/
theorem C6_required_field_gate (stats : CleanStats) (record : PyDict) :
    ((blankVal (dictGet record "company_name") ∨ blankVal (dictGet record "position")) →
      cleanRecord stats record =
        (Option.none,
          { stats with processed := stats.processed + 1, invalid := stats.invalid + 1 })) ∧
    (∀ s1 s2, dictGet record "company_name" = .str s1 → pyStrip s1 ≠ "" →
      dictGet record "position" = .str s2 → pyStrip s2 ≠ "" →
      ∃ c, cleanRecord stats record =
        (some c,
          { stats with processed := stats.processed + 1, cleaned := stats.cleaned + 1 })) := by
  constructor
  · intro hb
    have hval : isValidRecord record = false := by
      rcases hb with h | h
      · simp [isValidRecord, blank_bad _ h]
      · simp [isValidRecord, blank_bad _ h]
    simp [cleanRecord, hval]
  · intro s1 s2 h1 hs1 h2 hs2
    have hne1 : s1 ≠ "" := by rintro rfl; exact hs1 rfl
    have hne2 : s2 ≠ "" := by rintro rfl; exact hs2 rfl
    have hb1 : requiredFieldBad (dictGet record "company_name") = false := by
      rw [h1]; simp [requiredFieldBad, pyTruthy, hne1, hs1]
    have hb2 : requiredFieldBad (dictGet record "position") = false := by
      rw [h2]; simp [requiredFieldBad, pyTruthy, hne2, hs2]
    have hval : isValidRecord record = true := by
      simp [isValidRecord, hb1, hb2]
    simp only [cleanRecord, hval, Bool.not_true, Bool.false_eq_true, if_false]
    exact ⟨_, rfl⟩

/-- Witness for C6: a whitespace-only `company_name` is rejected with
`invalid` bumped; a record with both required fields non-blank is kept. -/
theorem C6_required_field_gate_witness :
    cleanRecord ⟨0, 0, 0⟩ [("company_name", .str " ")] = (Option.none, ⟨1, 0, 1⟩) ∧
    ∃ c, cleanRecord ⟨0, 0, 0⟩ dataA = (some c, ⟨1, 1, 0⟩) := by
  constructor
  · exact (C6_required_field_gate ⟨0, 0, 0⟩ _).1 (Or.inl (Or.inr ⟨" ", rfl, rfl⟩))
  · exact (C6_required_field_gate ⟨0, 0, 0⟩ dataA).2 "A" "P" rfl (by decide) rfl (by decide)

theorem serializeHashField_perm (l1 l2 : List PyVal) (hp : l1.Perm l2) :
    serializeHashField (.list l1) = serializeHashField (.list l2) := by
  simp only [serializeHashField]
  congr 1
  have hps : (l1.map pyStr).Perm (l2.map pyStr) := hp.map pyStr
  have hs1 : List.Sorted (fun a b : String => a ≤ b)
      (List.insertionSort (fun a b => a ≤ b) (l1.map pyStr)) :=
    List.sorted_insertionSort _ _
  have hs2 : List.Sorted (fun a b : String => a ≤ b)
      (List.insertionSort (fun a b => a ≤ b) (l2.map pyStr)) :=
    List.sorted_insertionSort _ _
  exact List.eq_of_perm_of_sorted
    ((List.perm_insertionSort _ _).trans (hps.trans (List.perm_insertionSort _ _).symm))
    hs1 hs2

theorem md5Hex_length (s : String) : (md5Hex s).length = 32 := by
  unfold md5Hex md5Bytes
  rcases hfold : (chunksOf 64 (md5Pad (utf8Bytes s))).foldl md5Block
      (1732584193, 4023233417, 2562383102, 271733878) with ⟨a, b, c, d⟩
  simp [hfold, wordHexLE, byteHex, String.length]

/-- C8: the dedup hash depends only on the `(company_name, position,
publish_date)` components (lists compared up to reordering, dates via their
`YYYY-MM-DD` form): two records agreeing there share the digest, and the
digest always has the fixed 128-bit (32 hex character) width. -/
theorem C8_hash_determinism (r1 r2 : PyDict) (hagree : hashFieldsAgree r1 r2) :
    generateHash r1 = generateHash r2 ∧ (generateHash r1).length = 32 := by
  refine ⟨?_, md5Hex_length _⟩
  have h1 := hagree "company_name" (by simp [DEDUPLICATION_FIELDS])
  have h2 := hagree "position" (by simp [DEDUPLICATION_FIELDS])
  have h3 := hagree "publish_date" (by simp [DEDUPLICATION_FIELDS])
  have e1 : serializeHashField (dictGetD r1 "company_name" (.str "")) =
      serializeHashField (dictGetD r2 "company_name" (.str "")) := by
    rcases h1 with h | ⟨l1, l2, ha, hb, hp⟩
    · rw [h]
    · rw [ha, hb]; exact serializeHashField_perm l1 l2 hp
  have e2 : serializeHashField (dictGetD r1 "position" (.str "")) =
      serializeHashField (dictGetD r2 "position" (.str "")) := by
    rcases h2 with h | ⟨l1, l2, ha, hb, hp⟩
    · rw [h]
    · rw [ha, hb]; exact serializeHashField_perm l1 l2 hp
  have e3 : serializeHashField (dictGetD r1 "publish_date" (.str "")) =
      serializeHashField (dictGetD r2 "publish_date" (.str "")) := by
    rcases h3 with h | ⟨l1, l2, ha, hb, hp⟩
    · rw [h]
    · rw [ha, hb]; exact serializeHashField_perm l1 l2 hp
  simp only [generateHash, DEDUPLICATION_FIELDS, List.map_cons, List.map_nil, e1, e2, e3]

/-- Witness for C8: two records differing only in city-list order inside the
key component and in their extra fields hash identically. -/
theorem C8_hash_determinism_witness :
    generateHash [("company_name", .list [.str "b", .str "a"]), ("position", .str "P"),
        ("publish_date", .str "2026-01-01"), ("extra", .str "x")] =
      generateHash [("company_name", .list [.str "a", .str "b"]), ("position", .str "P"),
        ("publish_date", .str "2026-01-01"), ("other", .int 7)] := by
  refine (C8_hash_determinism _ _ ?_).1
  intro f hf
  simp only [DEDUPLICATION_FIELDS, List.mem_cons, List.not_mem_nil, or_false] at hf
  rcases hf with rfl | rfl | rfl
  · exact Or.inr ⟨[.str "b", .str "a"], [.str "a", .str "b"], rfl, rfl, by decide⟩
  · exact Or.inl rfl
  · exact Or.inl rfl

/-- C9 counterexample: the unknown key `"foo"` does **not** appear in the
output of `normalize_record` — unknown keys are dropped, not passed through. -/
theorem C9_counterexample :
    normalizerFieldMapping.lookup "foo" = Option.none ∧
    dictHas (normalizeRecord sampleNow
        [("company_name", .str "A"), ("position", .str "B"), ("foo", .str "bar")])
      "foo" = false :=
  ⟨rfl, rfl⟩

/-- C9 (amended): unknown keys are translated through the alias table as
themselves but then discarded — for every input, `normalize_record` returns a
record whose key set is exactly the 13 canonical fields. -/
theorem C9_canonical_fields (now : DateTime) (record : PyDict) :
    (normalizeRecord now record).map (fun kv => kv.1) =
      ["company_name", "position", "source", "publish_date", "deadline", "batch",
       "company_type", "industry", "city", "education", "target", "no_written_test",
       "referral_code"] := rfl

/-! ## Whitespace lemmas for normalization idempotence -/

theorem splitWsAux_good : ∀ (l acc : List Char), (∀ c ∈ acc, isSpaceChar c = false) →
    ∀ w ∈ splitWsAux l acc, w ≠ [] ∧ ∀ c ∈ w, isSpaceChar c = false := by
  intro l
  induction l with
  | nil =>
    intro acc hacc w hw
    simp only [splitWsAux] at hw
    split at hw
    · simp at hw
    · next hne =>
      simp only [List.mem_singleton] at hw
      subst hw
      refine ⟨?_, fun c hc => hacc c (List.mem_reverse.mp hc)⟩
      simp only [ne_eq, List.reverse_eq_nil_iff]
      exact fun h => hne (by simp [h])
  | cons c cs ih =>
    intro acc hacc w hw
    simp only [splitWsAux] at hw
    by_cases hsp : isSpaceChar c = true
    · rw [if_pos hsp] at hw
      split at hw
      · exact ih [] (by simp) w hw
      · next hne =>
        rcases List.mem_cons.mp hw with h | h
        · subst h
          refine ⟨?_, fun d hd => hacc d (List.mem_reverse.mp hd)⟩
          simp only [ne_eq, List.reverse_eq_nil_iff]
          exact fun h => hne (by simp [h])
        · exact ih [] (by simp) w h
    · rw [if_neg hsp] at hw
      refine ih (c :: acc) ?_ w hw
      intro d hd
      rcases List.mem_cons.mp hd with h | h
      · subst h; exact Bool.eq_false_iff.mpr hsp
      · exact hacc d h

theorem splitWsAux_append_word : ∀ (w : List Char),
    (∀ c ∈ w, isSpaceChar c = false) →
    ∀ (rest acc : List Char),
      splitWsAux (w ++ rest) acc = splitWsAux rest (w.reverse ++ acc) := by
  intro w
  induction w with
  | nil => intro _ rest acc; simp
  | cons c w2 ih =>
    intro hw rest acc
    have hc : isSpaceChar c = false := hw c (List.mem_cons_self ..)
    simp only [List.cons_append, splitWsAux, hc, Bool.false_eq_true, if_false,
      List.append_eq]
    rw [ih (fun d hd => hw d (List.mem_cons_of_mem c hd)) rest (c :: acc)]
    simp

theorem splitWsAux_allspace : ∀ (t : List Char), (∀ c ∈ t, isSpaceChar c = true) →
    ∀ acc, splitWsAux t acc = if acc.isEmpty then [] else [acc.reverse] := by
  intro t
  induction t with
  | nil => intro _ acc; rfl
  | cons c t2 ih =>
    intro ht acc
    have hc := ht c (List.mem_cons_self ..)
    simp only [splitWsAux, hc, if_true]
    rw [ih (fun d hd => ht d (List.mem_cons_of_mem c hd)) []]
    simp

theorem splitWsAux_joinSpace : ∀ (ws : List (List Char)),
    (∀ w ∈ ws, w ≠ [] ∧ ∀ c ∈ w, isSpaceChar c = false) →
    splitWsAux (joinSpace ws) [] = ws := by
  intro ws
  induction ws with
  | nil => intro _; rfl
  | cons w ws2 ih =>
    intro hws
    have hw := hws w (List.mem_cons_self ..)
    cases ws2 with
    | nil =>
      rw [show joinSpace [w] = w ++ [] by simp [joinSpace]]
      rw [splitWsAux_append_word w hw.2 [] []]
      simp [splitWsAux, List.isEmpty_iff, hw.1]
    | cons v ws3 =>
      rw [show joinSpace (w :: v :: ws3) = w ++ ' ' :: joinSpace (v :: ws3) from rfl]
      rw [splitWsAux_append_word w hw.2]
      have hsp : isSpaceChar ' ' = true := rfl
      simp only [splitWsAux, hsp, if_true, List.append_nil]
      rw [if_neg (by simp [List.isEmpty_iff, hw.1])]
      rw [ih (fun u hu => hws u (List.mem_cons_of_mem w hu))]
      simp

theorem splitWsAux_dropWhile : ∀ l : List Char,
    splitWsAux (l.dropWhile isSpaceChar) [] = splitWsAux l [] := by
  intro l
  induction l with
  | nil => rfl
  | cons c l2 ih =>
    by_cases hc : isSpaceChar c = true
    · rw [List.dropWhile_cons, if_pos hc, ih]
      simp [splitWsAux, hc]
    · rw [List.dropWhile_cons, if_neg (by simp [hc])]

theorem splitWsAux_append_spaces : ∀ (l t acc : List Char),
    (∀ c ∈ t, isSpaceChar c = true) →
    splitWsAux (l ++ t) acc = splitWsAux l acc := by
  intro l
  induction l with
  | nil =>
    intro t acc ht
    rw [List.nil_append, splitWsAux_allspace t ht acc]
    rfl
  | cons c l2 ih =>
    intro t acc ht
    simp only [List.cons_append, splitWsAux, List.append_eq]
    by_cases hc : isSpaceChar c = true
    · simp only [hc, if_true]
      rw [ih t [] ht]
    · simp only [hc, Bool.false_eq_true, if_false]
      exact ih t (c :: acc) ht

theorem mem_takeWhile_space : ∀ (x : List Char) (c : Char),
    c ∈ x.takeWhile isSpaceChar → isSpaceChar c = true := by
  intro x
  induction x with
  | nil => intro c hc; simp at hc
  | cons a x2 ih =>
    intro c hc
    rw [List.takeWhile_cons] at hc
    split at hc
    · next ha =>
      rcases List.mem_cons.mp hc with h | h
      · subst h; exact ha
      · exact ih c h
    · simp at hc

theorem stripChars_decomp (l : List Char) :
    ∃ t, l.dropWhile isSpaceChar = stripChars l ++ t ∧
      ∀ c ∈ t, isSpaceChar c = true := by
  have hsplit : ∀ (x : List Char),
      x.takeWhile isSpaceChar ++ x.dropWhile isSpaceChar = x := by
    intro x; exact List.takeWhile_append_dropWhile ..
  refine ⟨((l.dropWhile isSpaceChar).reverse.takeWhile isSpaceChar).reverse, ?_, ?_⟩
  · conv_lhs => rw [← List.reverse_reverse (l.dropWhile isSpaceChar),
      ← hsplit (l.dropWhile isSpaceChar).reverse]
    rw [List.reverse_append]
    rfl
  · intro c hc
    exact mem_takeWhile_space _ c (List.mem_reverse.mp hc)

theorem splitWs_stripChars (l : List Char) :
    splitWsAux (stripChars l) [] = splitWsAux l [] := by
  obtain ⟨t, hdec, ht⟩ := stripChars_decomp l
  have h1 : splitWsAux (stripChars l ++ t) [] = splitWsAux (stripChars l) [] :=
    splitWsAux_append_spaces _ t [] ht
  rw [← h1, ← hdec, splitWsAux_dropWhile]

theorem collapseWs_idem (s : String) : collapseWs (collapseWs s) = collapseWs s := by
  have hgood := splitWsAux_good (stripChars s.data) [] (by simp)
  show (⟨joinSpace (splitWsAux
      (stripChars (joinSpace (splitWsAux (stripChars s.data) []))) [])⟩ : String) =
    ⟨joinSpace (splitWsAux (stripChars s.data) [])⟩
  rw [splitWs_stripChars, splitWsAux_joinSpace _ hgood]

theorem dropWhile_head_false (p : Char → Bool) : ∀ (l : List Char) (c : Char),
    (l.dropWhile p).head? = some c → p c = false := by
  intro l
  induction l with
  | nil => intro c h; simp at h
  | cons a l2 ih =>
    intro c h
    rw [List.dropWhile_cons] at h
    split at h
    · exact ih c h
    · next hp =>
      simp only [List.head?_cons, Option.some.injEq] at h
      subst h
      exact Bool.eq_false_iff.mpr hp

theorem dropWhile_eq_self_of_head (p : Char → Bool) (l : List Char)
    (h : ∀ c, l.head? = some c → p c = false) : l.dropWhile p = l := by
  cases l with
  | nil => rfl
  | cons a l2 => rw [List.dropWhile_cons, if_neg (by simp [h a rfl])]

theorem dropWhile_getLast (p : Char → Bool) : ∀ (l : List Char),
    l.dropWhile p ≠ [] → (l.dropWhile p).getLast? = l.getLast? := by
  intro l
  induction l with
  | nil => intro hne; simp at hne
  | cons a l2 ih =>
    intro hne
    rw [List.dropWhile_cons] at hne ⊢
    by_cases hp : p a = true
    · rw [if_pos hp] at hne ⊢
      have hl2 : l2 ≠ [] := by
        intro h
        subst h
        simp at hne
      rw [ih hne]
      cases l2 with
      | nil => exact absurd rfl hl2
      | cons b l3 => simp [List.getLast?_cons_cons]
    · rw [if_neg hp]

theorem stripChars_head_false (l : List Char) :
    ∀ c, (stripChars l).head? = some c → isSpaceChar c = false := by
  intro c hc
  unfold stripChars at hc
  rw [List.head?_reverse] at hc
  have hBne : (l.dropWhile isSpaceChar).reverse.dropWhile isSpaceChar ≠ [] := by
    intro h
    rw [h] at hc
    simp at hc
  rw [dropWhile_getLast _ _ hBne, List.getLast?_reverse] at hc
  exact dropWhile_head_false isSpaceChar l c hc

theorem stripChars_getLast_false (l : List Char) :
    ∀ c, (stripChars l).getLast? = some c → isSpaceChar c = false := by
  intro c hc
  unfold stripChars at hc
  rw [List.getLast?_reverse] at hc
  exact dropWhile_head_false isSpaceChar _ c hc

theorem stripChars_eq_self (l : List Char)
    (h1 : ∀ c, l.head? = some c → isSpaceChar c = false)
    (h2 : ∀ c, l.getLast? = some c → isSpaceChar c = false) :
    stripChars l = l := by
  unfold stripChars
  rw [dropWhile_eq_self_of_head _ _ h1]
  rw [dropWhile_eq_self_of_head _ _ (fun c hc => h2 c (by rwa [List.head?_reverse] at hc))]
  exact List.reverse_reverse l

theorem stripChars_idem (l : List Char) : stripChars (stripChars l) = stripChars l :=
  stripChars_eq_self _ (stripChars_head_false l) (stripChars_getLast_false l)

theorem pyStrip_idem (s : String) : pyStrip (pyStrip s) = pyStrip s := by
  show (⟨stripChars (stripChars s.data)⟩ : String) = ⟨stripChars s.data⟩
  rw [stripChars_idem]

/-! ## Substring lemmas -/

theorem startsWithL_iff : ∀ (p l : List Char), startsWithL p l = true ↔ p <+: l := by
  intro p
  induction p with
  | nil => intro l; simp [startsWithL]
  | cons c p2 ih =>
    intro l
    cases l with
    | nil => simp [startsWithL]
    | cons d l2 =>
      simp only [startsWithL, Bool.and_eq_true, beq_iff_eq, List.cons_prefix_cons, ih l2]

theorem subStr_iff : ∀ (n l : List Char), subStr n l = true ↔ n <:+: l := by
  intro n l
  induction l with
  | nil => simp [subStr, List.isEmpty_iff, List.infix_nil]
  | cons c l2 ih =>
    simp only [subStr, Bool.or_eq_true, startsWithL_iff, ih]
    exact (List.infix_cons_iff).symm

theorem pyContains_trans (a b c : String) (h1 : pyContains a b = true)
    (h2 : pyContains b c = true) : pyContains a c = true := by
  rw [pyContains, subStr_iff] at h1 h2 ⊢
  exact h1.trans h2

theorem startsWithL_append_self : ∀ (p r : List Char), startsWithL p (p ++ r) = true := by
  intro p r
  induction p with
  | nil => rfl
  | cons c p2 ih => simp [startsWithL, ih]

/-! ## Per-field idempotence of the normalizer -/

theorem collapseWs_empty : collapseWs "" = "" := rfl

theorem normalizeText_idem (v : PyVal) :
    normalizeText (normalizeText v) = normalizeText v := by
  cases v <;> simp [normalizeText, pyStr, collapseWs_idem, collapseWs_empty]

theorem normalizeUrl_fix (u : String) (hne : u ≠ "") (hstrip : pyStrip u = u)
    (hs : (pyStartsWith u "http://" || pyStartsWith u "https://") = true) :
    normalizeUrl (.str u) = .str u := by
  simp only [normalizeUrl, pyStr]
  rw [if_neg (by simp [pyTruthy, hne])]
  rw [hstrip]
  simp [hs]

theorem string_data_mk (l : List Char) : (⟨l⟩ : String).data = l := rfl

theorem normalizeUrl_idem (v : PyVal) :
    normalizeUrl (normalizeUrl v) = normalizeUrl v := by
  cases hv : pyTruthy v
  · have h1 : normalizeUrl v = .str "" := by
      unfold normalizeUrl
      rw [hv]
      rfl
    rw [h1]
    rfl
  · simp only [normalizeUrl, hv, Bool.not_true, Bool.false_eq_true, if_false]
    by_cases hs : (pyStartsWith (pyStrip (pyStr v)) "http://" ||
        pyStartsWith (pyStrip (pyStr v)) "https://") = true
    · simp only [hs, if_true]
      refine normalizeUrl_fix _ ?_ (pyStrip_idem _) hs
      intro he
      rw [he] at hs
      exact absurd hs (by decide)
    · simp only [hs, Bool.false_eq_true, if_false]
      have hdata : ("https://" ++ pyStrip (pyStr v)).data =
          "https://".data ++ (pyStrip (pyStr v)).data := String.data_append ..
      refine normalizeUrl_fix _ ?_ ?_ ?_
      · intro he
        have : ("https://" ++ pyStrip (pyStr v)).data = [] := by rw [he]
        rw [hdata] at this
        simp at this
      · show (⟨stripChars ("https://" ++ pyStrip (pyStr v)).data⟩ : String) = _
        rw [hdata]
        rw [stripChars_eq_self]
        · exact congrArg String.mk hdata.symm
        · intro c hc
          rw [show ("https://".data ++ (pyStrip (pyStr v)).data).head? = some 'h'
            from rfl] at hc
          cases hc
          rfl
        · intro c hc
          rcases hd : (pyStrip (pyStr v)).data with _ | ⟨d, ds⟩
          · rw [hd] at hc
            rw [show ("https://".data ++ ([] : List Char)).getLast? = some '/'
              from rfl] at hc
            cases hc
            rfl
          · rw [hd] at hc
            rw [List.getLast?_append_of_ne_nil _ (by simp)] at hc
            rw [← hd] at hc
            have : (pyStrip (pyStr v)).data = stripChars (pyStr v).data := rfl
            rw [this] at hc
            exact stripChars_getLast_false _ c hc
      · have : pyStartsWith ("https://" ++ pyStrip (pyStr v)) "https://" = true := by
          show startsWithL "https://".data ("https://" ++ pyStrip (pyStr v)).data = true
          rw [hdata]
          exact startsWithL_append_self ..
        simp [this]

theorem normalizeDate_shape (now : DateTime) (v : PyVal) :
    ∃ d, normalizeDate now v = .date d := by
  cases v with
  | str s =>
    cases h : tryDateFmts now normalizeDateFmts s with
    | none => exact ⟨now, by simp [normalizeDate, h]⟩
    | some d => exact ⟨d, by simp [normalizeDate, h]⟩
  | none => exact ⟨now, rfl⟩
  | date d => exact ⟨d, rfl⟩
  | int n => exact ⟨now, rfl⟩
  | bool b => exact ⟨now, rfl⟩
  | list l => exact ⟨now, rfl⟩

theorem normalizeDate_idem (n1 n2 : DateTime) (v : PyVal) :
    normalizeDate n2 (normalizeDate n1 v) = normalizeDate n1 v := by
  obtain ⟨d, hd⟩ := normalizeDate_shape n1 v
  rw [hd]
  rfl

theorem findBatchKeyword_fix (text b : String)
    (hb : findBatchKeyword batchKeywords text = some b) :
    normalizeBatch (.str b) = .str b := by
  simp only [batchKeywords, findBatchKeyword] at hb
  by_cases h1 : pyContains "春招提前批" text = true
  · rw [if_pos h1] at hb; cases hb; decide
  rw [if_neg h1] at hb
  by_cases h2 : pyContains "春招" text = true
  · rw [if_pos h2] at hb; cases hb; decide
  rw [if_neg h2] at hb
  by_cases h3 : pyContains "春招补录" text = true
  · exact absurd (pyContains_trans "春招" "春招补录" text (by decide) h3) h2
  rw [if_neg h3] at hb
  by_cases h4 : pyContains "秋招提前批" text = true
  · rw [if_pos h4] at hb; cases hb; decide
  rw [if_neg h4] at hb
  by_cases h5 : pyContains "秋招" text = true
  · rw [if_pos h5] at hb; cases hb; decide
  rw [if_neg h5] at hb
  by_cases h6 : pyContains "秋招补录" text = true
  · exact absurd (pyContains_trans "秋招" "秋招补录" text (by decide) h6) h5
  rw [if_neg h6] at hb
  by_cases h7 : pyContains "寒假实习" text = true
  · rw [if_pos h7] at hb; cases hb; decide
  rw [if_neg h7] at hb
  by_cases h8 : pyContains "暑期实习" text = true
  · rw [if_pos h8] at hb; cases hb; decide
  rw [if_neg h8] at hb
  by_cases h9 : pyContains "日常实习" text = true
  · rw [if_pos h9] at hb; cases hb; decide
  rw [if_neg h9] at hb
  exact absurd hb (by simp)

theorem normalizeBatch_idem (v : PyVal) :
    normalizeBatch (normalizeBatch v) = normalizeBatch v := by
  cases hv : pyTruthy v
  · have h1 : normalizeBatch v = .str "" := by
      unfold normalizeBatch
      rw [hv]
      rfl
    rw [h1]
    rfl
  · have hv2 : normalizeBatch v =
        match findBatchKeyword batchKeywords (pyStrip (pyStr v)) with
        | some b => PyVal.str b
        | Option.none =>
          .str (if pyStrip (pyStr v) = "" then "春招" else pyStrip (pyStr v)) := by
      unfold normalizeBatch
      rw [hv]
      rfl
    rw [hv2]
    cases hf : findBatchKeyword batchKeywords (pyStrip (pyStr v)) with
    | some b => exact findBatchKeyword_fix _ b hf
    | none =>
      by_cases hemp : pyStrip (pyStr v) = ""
      · show normalizeBatch (.str (if pyStrip (pyStr v) = "" then "春招"
          else pyStrip (pyStr v))) = _
        rw [if_pos hemp]
        decide
      · show normalizeBatch (.str (if pyStrip (pyStr v) = "" then "春招"
          else pyStrip (pyStr v))) = _
        rw [if_neg hemp]
        show normalizeBatch (.str (pyStrip (pyStr v))) = .str (pyStrip (pyStr v))
        unfold normalizeBatch
        rw [if_neg (by simp [pyTruthy, hemp])]
        rw [show pyStr (.str (pyStrip (pyStr v))) = pyStrip (pyStr v) from rfl]
        rw [pyStrip_idem]
        show (match findBatchKeyword batchKeywords (pyStrip (pyStr v)) with
          | some b => PyVal.str b
          | Option.none =>
            PyVal.str (if pyStrip (pyStr v) = "" then "春招" else pyStrip (pyStr v))) =
          PyVal.str (pyStrip (pyStr v))
        rw [hf]
        show PyVal.str (if pyStrip (pyStr v) = "" then "春招" else pyStrip (pyStr v)) =
          PyVal.str (pyStrip (pyStr v))
        rw [if_neg hemp]

theorem findFuzzyOption_mem : ∀ (opts : List String) (text o : String),
    findFuzzyOption opts text = some o → o ∈ opts := by
  intro opts
  induction opts with
  | nil => intro text o h; simp [findFuzzyOption] at h
  | cons a opts2 ih =>
    intro text o h
    simp only [findFuzzyOption] at h
    split at h
    · cases h; exact List.mem_cons_self ..
    · exact List.mem_cons_of_mem a (ih text o h)

theorem enumCore_mem (x : PyVal) (opts : List String) (dflt : String) (hd : dflt ∈ opts) :
    ∃ s ∈ opts,
      (if opts.contains (pyStrip (pyStr x)) then PyVal.str (pyStrip (pyStr x))
       else
         match findFuzzyOption opts (pyStrip (pyStr x)) with
         | some o => PyVal.str o
         | Option.none => PyVal.str dflt) = .str s := by
  by_cases hc : opts.contains (pyStrip (pyStr x)) = true
  · exact ⟨pyStrip (pyStr x), by simpa using hc, by rw [if_pos hc]⟩
  · rw [if_neg hc]
    cases hz : findFuzzyOption opts (pyStrip (pyStr x)) with
    | some o => exact ⟨o, findFuzzyOption_mem opts _ o hz, rfl⟩
    | none => exact ⟨dflt, hd, rfl⟩

theorem normalizeEnum_mem (v : PyVal) (opts : List String) (dflt : String)
    (hd : dflt ∈ opts) : ∃ s ∈ opts, normalizeEnum v opts dflt = .str s := by
  unfold normalizeEnum
  by_cases ht : pyTruthy v = true
  · rw [if_neg (by simp [ht])]
    cases v with
    | list l =>
      cases l with
      | nil => exact ⟨dflt, hd, rfl⟩
      | cons x xs => exact enumCore_mem x opts dflt hd
    | none => exact enumCore_mem .none opts dflt hd
    | str s => exact enumCore_mem (.str s) opts dflt hd
    | int n => exact enumCore_mem (.int n) opts dflt hd
    | bool b => exact enumCore_mem (.bool b) opts dflt hd
    | date d => exact enumCore_mem (.date d) opts dflt hd
  · have hfalse : pyTruthy v = false := Bool.eq_false_iff.mpr ht
    rw [if_pos (by simp [hfalse])]
    exact ⟨dflt, hd, rfl⟩

theorem enum_fix_company : ∀ s ∈ COMPANY_TYPE_OPTIONS,
    normalizeEnum (.str s) COMPANY_TYPE_OPTIONS "民营企业" = .str s := by decide

theorem enum_fix_industry : ∀ s ∈ INDUSTRY_OPTIONS,
    normalizeEnum (.str s) INDUSTRY_OPTIONS "互联网" = .str s := by decide

theorem enum_fix_education : ∀ s ∈ EDUCATION_OPTIONS,
    normalizeEnum (.str s) EDUCATION_OPTIONS "本科及以上" = .str s := by decide

theorem normalizeEnum_idem_company (v : PyVal) :
    normalizeEnum (normalizeEnum v COMPANY_TYPE_OPTIONS "民营企业")
      COMPANY_TYPE_OPTIONS "民营企业" = normalizeEnum v COMPANY_TYPE_OPTIONS "民营企业" := by
  obtain ⟨s, hs, heq⟩ := normalizeEnum_mem v COMPANY_TYPE_OPTIONS "民营企业" (by decide)
  rw [heq]
  exact enum_fix_company s hs

theorem normalizeEnum_idem_industry (v : PyVal) :
    normalizeEnum (normalizeEnum v INDUSTRY_OPTIONS "互联网")
      INDUSTRY_OPTIONS "互联网" = normalizeEnum v INDUSTRY_OPTIONS "互联网" := by
  obtain ⟨s, hs, heq⟩ := normalizeEnum_mem v INDUSTRY_OPTIONS "互联网" (by decide)
  rw [heq]
  exact enum_fix_industry s hs

theorem normalizeEnum_idem_education (v : PyVal) :
    normalizeEnum (normalizeEnum v EDUCATION_OPTIONS "本科及以上")
      EDUCATION_OPTIONS "本科及以上" = normalizeEnum v EDUCATION_OPTIONS "本科及以上" := by
  obtain ⟨s, hs, heq⟩ := normalizeEnum_mem v EDUCATION_OPTIONS "本科及以上" (by decide)
  rw [heq]
  exact enum_fix_education s hs

theorem normalizeCityList_shape (v : PyVal) :
    ∃ ss : List String, normalizeCityList v = .list (ss.map .str) ∧
      ∀ s ∈ ss, pyStrip s = s := by
  by_cases ht : pyTruthy v = true
  case neg =>
    have hfalse : pyTruthy v = false := Bool.eq_false_iff.mpr ht
    refine ⟨[], ?_, by simp⟩
    unfold normalizeCityList
    rw [if_pos (by simp [hfalse])]
    rfl
  case pos =>
    cases v with
    | list l =>
      refine ⟨(l.filter pyTruthy).map (fun x => pyStrip (pyStr x)), ?_, ?_⟩
      · unfold normalizeCityList
        rw [if_neg (by simp [ht])]
        show PyVal.list ((l.filter pyTruthy).map fun x => .str (pyStrip (pyStr x))) = _
        rw [List.map_map]
        rfl
      · intro s hs
        simp only [List.mem_map] at hs
        obtain ⟨x, hx, hxx⟩ := hs
        rw [← hxx]
        exact pyStrip_idem _
    | str s =>
      cases hsep : findSepChar citySeparators s with
      | some sep =>
        refine ⟨((pySplitOn sep s).map pyStrip).filter (fun t => t ≠ ""), ?_, ?_⟩
        · unfold normalizeCityList
          rw [if_neg (by simp [ht])]
          show (match findSepChar citySeparators s with
            | some sep =>
              PyVal.list ((((pySplitOn sep s).map pyStrip).filter fun t => t ≠ "").map .str)
            | Option.none => PyVal.list [.str (pyStrip s)]) = _
          rw [hsep]
        · intro t htm
          have h2 : t ∈ (pySplitOn sep s).map pyStrip := List.mem_of_mem_filter htm
          simp only [List.mem_map] at h2
          obtain ⟨u, hu, huu⟩ := h2
          rw [← huu]
          exact pyStrip_idem _
      | none =>
        refine ⟨[pyStrip s], ?_, ?_⟩
        · unfold normalizeCityList
          rw [if_neg (by simp [ht])]
          show (match findSepChar citySeparators s with
            | some sep =>
              PyVal.list ((((pySplitOn sep s).map pyStrip).filter fun t => t ≠ "").map .str)
            | Option.none => PyVal.list [.str (pyStrip s)]) = _
          rw [hsep]
          rfl
        · intro t htm
          simp only [List.mem_singleton] at htm
          rw [htm]
          exact pyStrip_idem _
    | none => simp [pyTruthy] at ht
    | int n =>
      exact ⟨[], by unfold normalizeCityList; rw [if_neg (by simp [ht])]; rfl, by simp⟩
    | bool b =>
      exact ⟨[], by unfold normalizeCityList; rw [if_neg (by simp [ht])]; rfl, by simp⟩
    | date d =>
      exact ⟨[], by unfold normalizeCityList; rw [if_neg (by simp [ht])]; rfl, by simp⟩

theorem normalizeCityList_idem (v : PyVal)
    (hne : ∀ l, normalizeCityList v = .list l → PyVal.str "" ∉ l) :
    normalizeCityList (normalizeCityList v) = normalizeCityList v := by
  obtain ⟨ss, heq, hstr⟩ := normalizeCityList_shape v
  have hss : "" ∉ ss := fun h =>
    hne (ss.map .str) heq (List.mem_map.mpr ⟨"", h, rfl⟩)
  rw [heq]
  cases ss with
  | nil => rfl
  | cons s0 ss2 =>
    unfold normalizeCityList
    rw [if_neg (by simp [pyTruthy])]
    show PyVal.list ((((s0 :: ss2).map PyVal.str).filter pyTruthy).map
      fun x => .str (pyStrip (pyStr x))) = _
    have hfil : ((s0 :: ss2).map PyVal.str).filter pyTruthy = (s0 :: ss2).map .str := by
      rw [List.filter_eq_self]
      intro a ha
      simp only [List.mem_map] at ha
      obtain ⟨t, ht, rfl⟩ := ha
      have htne : t ≠ "" := fun h => hss (h ▸ ht)
      simp [pyTruthy, htne]
    rw [hfil, List.map_map]
    congr 1
    apply List.map_congr_left
    intro t ht
    show PyVal.str (pyStrip (pyStr (PyVal.str t))) = PyVal.str t
    rw [show pyStr (PyVal.str t) = t from rfl, hstr t ht]

theorem target_strip : ∀ t ∈ TARGET_OPTIONS, pyStrip t = t := by decide

theorem normalizeTargetList_shape (v : PyVal) :
    ∃ ts : List String, normalizeTargetList v = .list (ts.map .str) ∧ ts ≠ [] ∧
      ∀ t ∈ ts, t ∈ TARGET_OPTIONS := by
  by_cases ht : pyTruthy v = true
  case neg =>
    have hfalse : pyTruthy v = false := Bool.eq_false_iff.mpr ht
    refine ⟨["2026届"], ?_, by simp, by decide⟩
    unfold normalizeTargetList
    rw [if_pos (by simp [hfalse])]
    rfl
  case pos =>
    cases v with
    | list l =>
      by_cases he : ((l.map fun x => pyStrip (pyStr x)).filter
          fun t => TARGET_OPTIONS.contains t).isEmpty = true
      · refine ⟨["2026届"], ?_, by simp, by decide⟩
        unfold normalizeTargetList
        rw [if_neg (by simp [ht])]
        show PyVal.list ((if ((l.map fun x => pyStrip (pyStr x)).filter
            fun t => TARGET_OPTIONS.contains t).isEmpty then ["2026届"]
          else (l.map fun x => pyStrip (pyStr x)).filter
            fun t => TARGET_OPTIONS.contains t).map .str) = _
        rw [if_pos he]
      · refine ⟨(l.map fun x => pyStrip (pyStr x)).filter
            fun t => TARGET_OPTIONS.contains t, ?_,
            by simpa [List.isEmpty_iff] using he, ?_⟩
        · unfold normalizeTargetList
          rw [if_neg (by simp [ht])]
          show PyVal.list ((if ((l.map fun x => pyStrip (pyStr x)).filter
              fun t => TARGET_OPTIONS.contains t).isEmpty then ["2026届"]
            else (l.map fun x => pyStrip (pyStr x)).filter
              fun t => TARGET_OPTIONS.contains t).map .str) = _
          rw [if_neg he]
        · intro t htm
          simpa using List.of_mem_filter htm
    | str s =>
      by_cases he : (TARGET_OPTIONS.filter fun o => pyContains o s).isEmpty = true
      · refine ⟨["2026届"], ?_, by simp, by decide⟩
        unfold normalizeTargetList
        rw [if_neg (by simp [ht])]
        show PyVal.list ((if (TARGET_OPTIONS.filter fun o => pyContains o s).isEmpty
            then ["2026届"] else TARGET_OPTIONS.filter fun o => pyContains o s).map .str) = _
        rw [if_pos he]
      · refine ⟨TARGET_OPTIONS.filter fun o => pyContains o s, ?_,
            by simpa [List.isEmpty_iff] using he, ?_⟩
        · unfold normalizeTargetList
          rw [if_neg (by simp [ht])]
          show PyVal.list ((if (TARGET_OPTIONS.filter fun o => pyContains o s).isEmpty
            then ["2026届"] else TARGET_OPTIONS.filter fun o => pyContains o s).map .str) = _
          rw [if_neg he]
        · intro t htm
          exact List.mem_of_mem_filter htm
    | none => simp [pyTruthy] at ht
    | int n =>
      exact ⟨["2026届"], by unfold normalizeTargetList; rw [if_neg (by simp [ht])]; rfl,
        by simp, by decide⟩
    | bool b =>
      exact ⟨["2026届"], by unfold normalizeTargetList; rw [if_neg (by simp [ht])]; rfl,
        by simp, by decide⟩
    | date d =>
      exact ⟨["2026届"], by unfold normalizeTargetList; rw [if_neg (by simp [ht])]; rfl,
        by simp, by decide⟩

theorem normalizeTargetList_idem (v : PyVal) :
    normalizeTargetList (normalizeTargetList v) = normalizeTargetList v := by
  obtain ⟨ts, heq, hn, hmem⟩ := normalizeTargetList_shape v
  rw [heq]
  cases ts with
  | nil => exact absurd rfl hn
  | cons t0 ts2 =>
    unfold normalizeTargetList
    rw [if_neg (by simp [pyTruthy])]
    show PyVal.list ((if ((((t0 :: ts2).map PyVal.str).map fun x => pyStrip (pyStr x)).filter
        fun t => TARGET_OPTIONS.contains t).isEmpty then ["2026届"]
      else (((t0 :: ts2).map PyVal.str).map fun x => pyStrip (pyStr x)).filter
        fun t => TARGET_OPTIONS.contains t).map .str) = _
    have hmm : ((t0 :: ts2).map PyVal.str).map (fun x => pyStrip (pyStr x)) = t0 :: ts2 := by
      rw [List.map_map]
      have h : ∀ t ∈ (t0 :: ts2), ((fun x => pyStrip (pyStr x)) ∘ PyVal.str) t = id t := by
        intro t ht
        show pyStrip (pyStr (PyVal.str t)) = t
        rw [show pyStr (PyVal.str t) = t from rfl]
        exact target_strip t (hmem t ht)
      rw [List.map_congr_left h, List.map_id]
    rw [hmm]
    have hfil : (t0 :: ts2).filter (fun t => TARGET_OPTIONS.contains t) = t0 :: ts2 := by
      rw [List.filter_eq_self]
      intro a ha
      simpa using hmem a ha
    rw [hfil]
    rw [if_neg (by simp)]

theorem normalizeBoolean_idem (v : PyVal) :
    normalizeBoolean (normalizeBoolean v) = normalizeBoolean v := by
  cases v <;> rfl

/-- C5 counterexample: for the canonical-keyed input `{"city": [" "]}`, the
first normalization keeps the whitespace-only city entry as `""` and the
second pass drops it, so `normalize(normalize(x)) ≠ normalize(x)`. -/
theorem C5_counterexample :
    normalizeRecord sampleNow (normalizeRecord sampleNow [("city", .list [.str " "])]) ≠
      normalizeRecord sampleNow [("city", .list [.str " "])] := by decide

theorem normalizeRecord_of_canonical (now2 : DateTime)
    (a1 a2 a3 a4 a5 a6 a7 a8 a9 a10 a11 a12 a13 : PyVal) :
    normalizeRecord now2 [("company_name", a1), ("position", a2), ("source", a3),
      ("publish_date", a4), ("deadline", a5), ("batch", a6), ("company_type", a7),
      ("industry", a8), ("city", a9), ("education", a10), ("target", a11),
      ("no_written_test", a12), ("referral_code", a13)] =
      [("company_name", normalizeText a1), ("position", normalizeText a2),
       ("source", normalizeUrl a3), ("publish_date", normalizeDate now2 a4),
       ("deadline", normalizeDate now2 a5), ("batch", normalizeBatch a6),
       ("company_type", normalizeEnum a7 COMPANY_TYPE_OPTIONS "民营企业"),
       ("industry", normalizeEnum a8 INDUSTRY_OPTIONS "互联网"),
       ("city", normalizeCityList a9),
       ("education", normalizeEnum a10 EDUCATION_OPTIONS "本科及以上"),
       ("target", normalizeTargetList a11), ("no_written_test", normalizeBoolean a12),
       ("referral_code", normalizeText a13)] := by
  have hmap : mapRecordKeys [("company_name", a1), ("position", a2), ("source", a3),
      ("publish_date", a4), ("deadline", a5), ("batch", a6), ("company_type", a7),
      ("industry", a8), ("city", a9), ("education", a10), ("target", a11),
      ("no_written_test", a12), ("referral_code", a13)] =
      [("company_name", a1), ("position", a2), ("source", a3),
      ("publish_date", a4), ("deadline", a5), ("batch", a6), ("company_type", a7),
      ("industry", a8), ("city", a9), ("education", a10), ("target", a11),
      ("no_written_test", a12), ("referral_code", a13)] := by
    simp [mapRecordKeys, dictSet, mapStdKey, normalizerFieldMapping, List.lookup]
  simp only [normalizeRecord, hmap]
  simp [dictGet, dictGetD]

/-- C5 (amended): normalization is idempotent on canonical-keyed inputs
whose normalized city set contains no empty string (whitespace-only city
entries are the only source of non-idempotence); the inner and outer passes
may even run at different clock times. -/
theorem C5_normalize_idem (now1 now2 : DateTime) (x : PyDict)
    (hkeys : ∀ kv ∈ x, kv.1 ∈ (["company_name", "position", "source", "publish_date",
      "deadline", "batch", "company_type", "industry", "city", "education", "target",
      "no_written_test", "referral_code"] : List String))
    (hcity : ∀ l, dictGet (normalizeRecord now1 x) "city" = .list l →
      PyVal.str "" ∉ l) :
    normalizeRecord now2 (normalizeRecord now1 x) = normalizeRecord now1 x := by
  have hcity2 : ∀ l, normalizeCityList (dictGet (mapRecordKeys x) "city") = .list l →
      PyVal.str "" ∉ l := fun l hl => hcity l hl
  have hx : normalizeRecord now1 x =
      [("company_name", normalizeText (dictGetD (mapRecordKeys x) "company_name" (.str ""))),
       ("position", normalizeText (dictGetD (mapRecordKeys x) "position" (.str ""))),
       ("source", normalizeUrl (dictGetD (mapRecordKeys x) "source" (.str ""))),
       ("publish_date", normalizeDate now1 (dictGet (mapRecordKeys x) "publish_date")),
       ("deadline", normalizeDate now1 (dictGet (mapRecordKeys x) "deadline")),
       ("batch", normalizeBatch (dictGet (mapRecordKeys x) "batch")),
       ("company_type", normalizeEnum (dictGet (mapRecordKeys x) "company_type")
          COMPANY_TYPE_OPTIONS "民营企业"),
       ("industry", normalizeEnum (dictGet (mapRecordKeys x) "industry")
          INDUSTRY_OPTIONS "互联网"),
       ("city", normalizeCityList (dictGet (mapRecordKeys x) "city")),
       ("education", normalizeEnum (dictGet (mapRecordKeys x) "education")
          EDUCATION_OPTIONS "本科及以上"),
       ("target", normalizeTargetList (dictGet (mapRecordKeys x) "target")),
       ("no_written_test", normalizeBoolean (dictGet (mapRecordKeys x) "no_written_test")),
       ("referral_code", normalizeText (dictGetD (mapRecordKeys x) "referral_code" (.str "")))]
      := rfl
  rw [hx, normalizeRecord_of_canonical]
  rw [normalizeCityList_idem _ hcity2]
  simp only [normalizeText_idem, normalizeUrl_idem, normalizeDate_idem,
    normalizeBatch_idem, normalizeEnum_idem_company, normalizeEnum_idem_industry,
    normalizeEnum_idem_education, normalizeTargetList_idem, normalizeBoolean_idem]

/-- Witness for C5 (amended): re-normalizing the normalized `dataA` record is
a no-op. -/
theorem C5_normalize_idem_witness :
    normalizeRecord sampleNow (normalizeRecord sampleNow dataA) =
      normalizeRecord sampleNow dataA := by
  refine C5_normalize_idem sampleNow sampleNow dataA (by decide) ?_
  intro l hl
  have hc : dictGet (normalizeRecord sampleNow dataA) "city" = PyVal.list [] := rfl
  rw [hc] at hl
  cases hl
  simp

end Zp
